import Mathlib

/-!
# LOGL: tag-level registry and dispatch filter

Shallow embedding of `logl.h` / `logl.c`.

* Machine state: the two file-static variables of `logl.c`, `tag_entries`
  (an array of exactly `LOGL_MAX_TAG_ENTRIES` entries) and `tag_entries_count`.
* A tag is a `const char*`; the code compares tags with `==`, so a tag is
  modelled by its address.
* `log_level_t` lists the four enumerators, which is what the `LOG_*` macros and
  the floor are instantiated with. An object of that enum type (the `level`
  argument of `logl_set_level`, the `level` field of an entry, the result of
  `logl_get_level`) holds an integer that the code never range-checks, so it is
  modelled by its integer value.
* Reading `tag_entries[i]` with `i` outside the array is undefined behaviour in
  C; the embedding returns `none` there, so `some _` means that the C code runs
  with every array access in bounds.
* The two external collaborators (`logl_get_timestamp`, `logl_write`) are
  recorded as a trace of calls.
* The compile-time floor `LOGL_MIN_LOG_LEVEL` and the address held by the
  file-static `TAG` are parameters of the functions that use them.
* `logl_write` forwards to the C library's `vprintf`; the text it prints is
  given for the conversions `%d`, `%lu`, `%s` and `%%`, with the memory that
  holds the tag strings as a parameter `mem`.
-/

namespace Logl

/-- The enum `log_level_t` of `logl.h`. -/
inductive log_level_t where
  | LOG_LEVEL_DEBUG
  | LOG_LEVEL_INFO
  | LOG_LEVEL_WARN
  | LOG_LEVEL_ERROR
  deriving DecidableEq, Repr

open log_level_t

/-- The integer value of an enumerator (C numbers them from 0). -/
def log_level_t.toInt : log_level_t → Int
  | LOG_LEVEL_DEBUG => 0
  | LOG_LEVEL_INFO => 1
  | LOG_LEVEL_WARN => 2
  | LOG_LEVEL_ERROR => 3

/-- A tag is a `const char*`: the address of the caller's string. -/
abbrev Tag := Nat

/-- The shipped value of `#define LOGL_MIN_LOG_LEVEL LOG_LEVEL_DEBUG`. -/
def LOGL_MIN_LOG_LEVEL : log_level_t := LOG_LEVEL_DEBUG

/-- The value of `#define LOGL_MAX_TAG_ENTRIES 20`. -/
def LOGL_MAX_TAG_ENTRIES : Nat := 20

/-- The struct `tag_entry_t` of `logl.c`. The field `level` is an object of the
enum type `log_level_t`; such an object holds an integer, and nothing in `logl.c`
restricts it to the four enumerators, so it is modelled by its integer value. -/
structure tag_entry_t where
  tag : Tag
  level : Int
  deriving DecidableEq, Repr

/-- The file-static state of `logl.c`: the array
`tag_entries[LOGL_MAX_TAG_ENTRIES]` and the counter `tag_entries_count`. -/
structure State where
  tag_entries : List tag_entry_t
  tag_entries_size : tag_entries.length = LOGL_MAX_TAG_ENTRIES
  tag_entries_count : Nat
  deriving DecidableEq

/-- The state at program start: statics are zero-initialised, so every slot
holds the null pointer and enumerator 0, and the count is 0. -/
def State.init : State where
  tag_entries := List.replicate LOGL_MAX_TAG_ENTRIES ⟨0, LOG_LEVEL_DEBUG.toInt⟩
  tag_entries_size := List.length_replicate _ _
  tag_entries_count := 0

/-- An argument passed through the `...` of `logl_write`. -/
inductive Arg where
  | num (n : Int)
  | str (p : Tag)
  deriving DecidableEq, Repr

/-- A call to one of the two external collaborators. -/
inductive Call where
  | get_timestamp
  | write (format : String) (args : List Arg)
  deriving DecidableEq, Repr

/-- The function `logl_get_timestamp`: `time(NULL)` converted to `uint32_t`.
`now` is the value `time(NULL)` returns. -/
def logl_get_timestamp (now : Int) : Nat := (now % 2 ^ 32).toNat

/-- The tokens that `LOGL_FORMAT` and `LOGL_COLOR_##letter` are instantiated with. -/
inductive Letter where
  | D | I | W | E
  deriving DecidableEq, Repr

/-- The value of `#define LOGL_RESET_COLOR` under `LOGL_USE_COLOR 1`. -/
def LOGL_RESET_COLOR : String := "\x1b[0m"

/-- The macros `LOGL_COLOR_E`, `LOGL_COLOR_W`, `LOGL_COLOR_I`, `LOGL_COLOR_D`
under `LOGL_USE_COLOR 1` (`LOGL_COLOR_D` expands to nothing). -/
def LOGL_COLOR : Letter → String
  | .E => "\x1b[0;31m"
  | .W => "\x1b[0;33m"
  | .I => "\x1b[0;32m"
  | .D => ""

/-- The stringification `#letter`. -/
def Letter.stringify : Letter → String
  | .D => "D"
  | .I => "I"
  | .W => "W"
  | .E => "E"

/-- The macro `LOGL_FORMAT(letter, format)`: adjacent string literals concatenate. -/
def LOGL_FORMAT (letter : Letter) (format : String) : String :=
  LOGL_COLOR letter ++ (letter.stringify ++ (" (%lu) %s: " ++ (format ++ (LOGL_RESET_COLOR ++ "\r\n"))))

/-- The `for` loop of `logl_get_level`, with `n` iterations left and loop
variable `i`. `none`: a read outside the array. `some none`: the loop ran to
`i = tag_entries_count` without a match. `some (some l)`: `break` with level `l`. -/
def logl_get_level_loop (s : State) (tag : Tag) : Nat → Nat → Option (Option Int)
  | 0, _ => some none
  | n + 1, i =>
    match s.tag_entries[i]? with
    | none => none
    | some e => if e.tag = tag then some (some e.level) else logl_get_level_loop s tag n (i + 1)

/-- The function `logl_get_level`; `floor` is `LOGL_MIN_LOG_LEVEL`. The
result is the integer value of the returned `log_level_t`. -/
def logl_get_level (floor : log_level_t) (s : State) (tag : Tag) : Option Int :=
  match logl_get_level_loop s tag s.tag_entries_count 0 with
  | none => none
  | some none => some floor.toInt
  | some (some level) => some level

/-- The macro `LOGL_LOG(level, tag, format, ...)`; `floor` is
`LOGL_MIN_LOG_LEVEL`, `now` is what `time(NULL)` returns. The result is the
state afterwards and the calls made to the collaborators, in order. -/
def LOGL_LOG (floor : log_level_t) (now : Int) (level : log_level_t) (tag : Tag)
    (format : String) (args : List Arg) (s : State) : Option (State × List Call) :=
  if floor.toInt ≤ level.toInt then
    match logl_get_level floor s tag with
    | none => none
    | some tag_level =>
      if tag_level ≤ level.toInt then
        if level = LOG_LEVEL_DEBUG then
          some (s, [Call.get_timestamp,
            Call.write (LOGL_FORMAT .D format) (Arg.num (logl_get_timestamp now) :: Arg.str tag :: args)])
        else if level = LOG_LEVEL_INFO then
          some (s, [Call.get_timestamp,
            Call.write (LOGL_FORMAT .I format) (Arg.num (logl_get_timestamp now) :: Arg.str tag :: args)])
        else if level = LOG_LEVEL_WARN then
          some (s, [Call.get_timestamp,
            Call.write (LOGL_FORMAT .W format) (Arg.num (logl_get_timestamp now) :: Arg.str tag :: args)])
        else if level = LOG_LEVEL_ERROR then
          some (s, [Call.get_timestamp,
            Call.write (LOGL_FORMAT .E format) (Arg.num (logl_get_timestamp now) :: Arg.str tag :: args)])
        else some (s, [])
      else some (s, [])
  else some (s, [])

/-- The macro `LOG_WARN(tag, format, ...)`. -/
def LOG_WARN (floor : log_level_t) (now : Int) (tag : Tag) (format : String) (args : List Arg)
    (s : State) : Option (State × List Call) :=
  LOGL_LOG floor now LOG_LEVEL_WARN tag format args s

/-- The macros `LOG_DEBUG`, `LOG_INFO` and `LOG_ERROR`. -/
def LOG_DEBUG (floor : log_level_t) (now : Int) (tag : Tag) (format : String) (args : List Arg)
    (s : State) : Option (State × List Call) :=
  LOGL_LOG floor now LOG_LEVEL_DEBUG tag format args s

def LOG_INFO (floor : log_level_t) (now : Int) (tag : Tag) (format : String) (args : List Arg)
    (s : State) : Option (State × List Call) :=
  LOGL_LOG floor now LOG_LEVEL_INFO tag format args s

def LOG_ERROR (floor : log_level_t) (now : Int) (tag : Tag) (format : String) (args : List Arg)
    (s : State) : Option (State × List Call) :=
  LOGL_LOG floor now LOG_LEVEL_ERROR tag format args s

/-- A store `tag_entries[i] = e`; `none` when `i` is outside the array. -/
def State.store (s : State) (i : Nat) (e : tag_entry_t) : Option State :=
  if i < s.tag_entries.length then
    some { s with
      tag_entries := s.tag_entries.set i e
      tag_entries_size := by rw [List.length_set]; exact s.tag_entries_size }
  else none

/-- The `for` loop of `logl_set_level`, with `n` iterations left and loop
variable `i`. `none`: an access outside the array. `some none`: the loop ran to
`i = tag_entries_count` without a match. `some (some s1)`: `return` from inside
the loop, leaving state `s1`. -/
def logl_set_level_loop (s : State) (tag : Tag) (level : Int) :
    Nat → Nat → Option (Option State)
  | 0, _ => some none
  | n + 1, i =>
    match s.tag_entries[i]? with
    | none => none
    | some e =>
      if e.tag = tag then
        match s.store i { e with level := level } with
        | none => none
        | some s1 => some (some s1)
      else logl_set_level_loop s tag level n (i + 1)

/-- The function `logl_set_level`; `floor` is `LOGL_MIN_LOG_LEVEL`, `TAG` the
address held by the file-static `TAG` (the literal "logl"), `now` what
`time(NULL)` returns. `level` is the integer value of the argument of enum type
`log_level_t`; the function stores it unchecked. The result is the state
afterwards and the calls made to the collaborators. -/
def logl_set_level (floor : log_level_t) (TAG : Tag) (now : Int) (s : State) (tag : Tag)
    (level : Int) : Option (State × List Call) :=
  match logl_set_level_loop s tag level s.tag_entries_count 0 with
  | none => none
  | some (some s1) => some (s1, [])
  | some none =>
    if s.tag_entries_count < LOGL_MAX_TAG_ENTRIES then
      match s.store s.tag_entries_count ⟨tag, level⟩ with
      | none => none
      | some s1 => some ({ s1 with tag_entries_count := s.tag_entries_count + 1 }, [])
    else
      LOG_WARN floor now TAG
        "Could not add tag %s to list: List is full. Try increasing LOGL_MAX_TAG_ENTRIES"
        [Arg.str tag] s

/-- Tag `tag` has an entry: one of the first `tag_entries_count` slots of the
array holds it. -/
def State.hasEntry (s : State) (tag : Tag) : Prop :=
  ∃ i e, i < s.tag_entries_count ∧ s.tag_entries[i]? = some e ∧ e.tag = tag

/-- Slot `k` holds entry `e`, which is the lowest-index entry for `tag`. -/
def State.firstAt (s : State) (tag : Tag) (k : Nat) (e : tag_entry_t) : Prop :=
  k < s.tag_entries_count ∧ s.tag_entries[k]? = some e ∧ e.tag = tag ∧
    ∀ j e', j < k → s.tag_entries[j]? = some e' → e'.tag ≠ tag

/-- The states the program can be in: the start state, closed under calls of
`logl_set_level` and logging invocations that run without undefined behaviour. -/
inductive Reachable (floor : log_level_t) (TAG : Tag) : State → Prop
  | init : Reachable floor TAG State.init
  | set_level {s s1 : State} {calls : List Call} (now : Int) (tag : Tag) (level : Int) :
      Reachable floor TAG s → logl_set_level floor TAG now s tag level = some (s1, calls) →
      Reachable floor TAG s1
  | log {s s1 : State} {calls : List Call} (now : Int) (level : log_level_t) (tag : Tag)
      (format : String) (args : List Arg) :
      Reachable floor TAG s → LOGL_LOG floor now level tag format args s = some (s1, calls) →
      Reachable floor TAG s1

/-- Run `logl_set_level` on each (tag, level) pair in turn, at time 0;
used to build concrete reachable states. -/
def set_levels (floor : log_level_t) (TAG : Tag) : List (Tag × Int) → State → Option State
  | [], s => some s
  | (tag, level) :: rest, s =>
    match logl_set_level floor TAG 0 s tag level with
    | none => none
    | some (s1, _) => set_levels floor TAG rest s1

/-- No two of the first `tag_entries_count` slots hold the same tag. -/
def State.unique (s : State) : Prop :=
  ∀ i j ei ej, i < s.tag_entries_count → j < s.tag_entries_count →
    s.tag_entries[i]? = some ei → s.tag_entries[j]? = some ej → ei.tag = ej.tag → i = j

instance (s : State) (tag : Tag) : Decidable (s.hasEntry tag) :=
  decidable_of_iff
    (∃ i, i < s.tag_entries_count ∧ (s.tag_entries[i]?).map tag_entry_t.tag = some tag) (by
      unfold State.hasEntry
      constructor
      · rintro ⟨i, hi, h⟩
        obtain ⟨e, he, ht⟩ := Option.map_eq_some'.mp h
        exact ⟨i, e, hi, he, ht⟩
      · rintro ⟨i, e, hi, he, ht⟩
        exact ⟨i, hi, Option.map_eq_some'.mpr ⟨e, he, ht⟩⟩)

/-- A full registry: the tags 100 .. 119, each at level INFO. -/
def fullRegistry : State where
  tag_entries := (List.range 20).map fun i => ⟨100 + i, LOG_LEVEL_INFO.toInt⟩
  tag_entries_size := by decide
  tag_entries_count := 20

/-- A full registry whose first entry is the tag at address 7 at level ERROR,
followed by the tags 100 .. 118 at level INFO. -/
def silencedRegistry : State where
  tag_entries := ⟨7, LOG_LEVEL_ERROR.toInt⟩ ::
    (List.range 19).map fun i => ⟨100 + i, LOG_LEVEL_INFO.toInt⟩
  tag_entries_size := by decide
  tag_entries_count := 20

/-- The level-to-presentation table in the words of the specification:
the colour code and the letter of each level. -/
def presentation : log_level_t → String × String
  | LOG_LEVEL_DEBUG => ("", "D")
  | LOG_LEVEL_INFO => ("\x1b[0;32m", "I")
  | LOG_LEVEL_WARN => ("\x1b[0;33m", "W")
  | LOG_LEVEL_ERROR => ("\x1b[0;31m", "E")

/-- A registry with the two entries (1, INFO) and (2, WARN). -/
def twoTags : State where
  tag_entries := ⟨1, LOG_LEVEL_INFO.toInt⟩ :: ⟨2, LOG_LEVEL_WARN.toInt⟩ ::
    List.replicate 18 ⟨0, LOG_LEVEL_DEBUG.toInt⟩
  tag_entries_size := by decide
  tag_entries_count := 2

/-- A registry (not reachable) in which tag 5 occupies slots 1 and 2 with
different levels; the other slot in use holds tag 4. -/
def dupTags : State where
  tag_entries := ⟨4, LOG_LEVEL_INFO.toInt⟩ :: ⟨5, LOG_LEVEL_WARN.toInt⟩ ::
    ⟨5, LOG_LEVEL_ERROR.toInt⟩ :: List.replicate 17 ⟨0, LOG_LEVEL_DEBUG.toInt⟩
  tag_entries_size := by decide
  tag_entries_count := 3

/-- Whether a call is a call to the write sink `logl_write`. -/
def Call.isWrite : Call → Bool
  | Call.write _ _ => true
  | Call.get_timestamp => false

/-- The registry after `logl_set_level(42, 4)` on the start state: tag 42 holds
the level 4, which is above every enumerator. -/
def aboveError : State where
  tag_entries := ⟨42, 4⟩ :: List.replicate 19 ⟨0, LOG_LEVEL_DEBUG.toInt⟩
  tag_entries_size := by decide
  tag_entries_count := 1

/-! ## Array accesses -/

theorem read_inside (s : State) {i : Nat} (h : i < LOGL_MAX_TAG_ENTRIES) :
    ∃ e, s.tag_entries[i]? = some e := by
  have hlen : i < s.tag_entries.length := by rw [s.tag_entries_size]; exact h
  exact ⟨s.tag_entries[i], List.getElem?_eq_getElem hlen⟩

theorem inside_of_read (s : State) {i : Nat} {e : tag_entry_t}
    (h : s.tag_entries[i]? = some e) : i < LOGL_MAX_TAG_ENTRIES := by
  have := (List.getElem?_eq_some.mp h).1
  rwa [s.tag_entries_size] at this

theorem store_inside (s : State) {i : Nat} (e : tag_entry_t) (h : i < LOGL_MAX_TAG_ENTRIES) :
    ∃ s1, s.store i e = some s1 ∧ s1.tag_entries = s.tag_entries.set i e ∧
      s1.tag_entries_count = s.tag_entries_count := by
  have hlen : i < s.tag_entries.length := by rw [s.tag_entries_size]; exact h
  refine ⟨{ s with
      tag_entries := s.tag_entries.set i e
      tag_entries_size := by rw [List.length_set]; exact s.tag_entries_size }, ?_, rfl, rfl⟩
  unfold State.store
  rw [if_pos hlen]

theorem read_set_same (s : State) {i : Nat} (e : tag_entry_t) (h : i < LOGL_MAX_TAG_ENTRIES) :
    (s.tag_entries.set i e)[i]? = some e := by
  have hlen : i < s.tag_entries.length := by rw [s.tag_entries_size]; exact h
  simp [List.getElem?_set, hlen]

theorem read_set_other (s : State) {i j : Nat} (e : tag_entry_t) (h : i ≠ j) :
    (s.tag_entries.set i e)[j]? = s.tag_entries[j]? := by
  simp [List.getElem?_set, h]

/-! ## The two loops -/

theorem get_loop_miss (s : State) (tag : Tag) :
    ∀ n i, i + n ≤ LOGL_MAX_TAG_ENTRIES →
      (∀ j e, i ≤ j → j < i + n → s.tag_entries[j]? = some e → e.tag ≠ tag) →
      logl_get_level_loop s tag n i = some none := by
  intro n
  induction n with
  | zero => intro i _ _; rfl
  | succ n ih =>
    intro i hb hne
    obtain ⟨e, he⟩ := read_inside s (i := i) (by omega)
    have hte : e.tag ≠ tag := hne i e (le_refl _) (by omega) he
    simp only [logl_get_level_loop, he, if_neg hte]
    exact ih (i + 1) (by omega) (fun j e' h1 h2 => hne j e' (by omega) (by omega))

theorem get_loop_hit (s : State) (tag : Tag) (k : Nat) (e : tag_entry_t)
    (hk : s.tag_entries[k]? = some e) (ht : e.tag = tag) :
    ∀ n i, i ≤ k → k < i + n →
      (∀ j e', i ≤ j → j < k → s.tag_entries[j]? = some e' → e'.tag ≠ tag) →
      logl_get_level_loop s tag n i = some (some e.level) := by
  intro n
  induction n with
  | zero => intro i h1 h2 _; omega
  | succ n ih =>
    intro i h1 h2 hne
    by_cases hik : i = k
    · subst hik
      simp only [logl_get_level_loop, hk, if_pos ht]
    · have hkin := inside_of_read s hk
      obtain ⟨e', he'⟩ := read_inside s (i := i) (by omega)
      have hte : e'.tag ≠ tag := hne i e' (le_refl _) (by omega) he'
      simp only [logl_get_level_loop, he', if_neg hte]
      exact ih (i + 1) (by omega) (by omega) (fun j e'' h3 h4 => hne j e'' (by omega) h4)

theorem set_loop_miss (s : State) (tag : Tag) (level : Int) :
    ∀ n i, i + n ≤ LOGL_MAX_TAG_ENTRIES →
      (∀ j e, i ≤ j → j < i + n → s.tag_entries[j]? = some e → e.tag ≠ tag) →
      logl_set_level_loop s tag level n i = some none := by
  intro n
  induction n with
  | zero => intro i _ _; rfl
  | succ n ih =>
    intro i hb hne
    obtain ⟨e, he⟩ := read_inside s (i := i) (by omega)
    have hte : e.tag ≠ tag := hne i e (le_refl _) (by omega) he
    simp only [logl_set_level_loop, he, if_neg hte]
    exact ih (i + 1) (by omega) (fun j e' h1 h2 => hne j e' (by omega) (by omega))

theorem set_loop_hit (s : State) (tag : Tag) (level : Int) (k : Nat) (e : tag_entry_t)
    (hk : s.tag_entries[k]? = some e) (ht : e.tag = tag) :
    ∀ n i, i ≤ k → k < i + n →
      (∀ j e', i ≤ j → j < k → s.tag_entries[j]? = some e' → e'.tag ≠ tag) →
      ∃ s1, logl_set_level_loop s tag level n i = some (some s1) ∧
        s1.tag_entries = s.tag_entries.set k { e with level := level } ∧
        s1.tag_entries_count = s.tag_entries_count := by
  intro n
  induction n with
  | zero => intro i h1 h2 _; omega
  | succ n ih =>
    intro i h1 h2 hne
    have hkin := inside_of_read s hk
    by_cases hik : i = k
    · subst hik
      obtain ⟨s1, hs1, h3, h4⟩ := store_inside s { e with level := level } hkin
      refine ⟨s1, ?_, h3, h4⟩
      simp only [logl_set_level_loop, hk, if_pos ht, hs1]
    · obtain ⟨e', he'⟩ := read_inside s (i := i) (by omega)
      have hte : e'.tag ≠ tag := hne i e' (le_refl _) (by omega) he'
      simp only [logl_set_level_loop, he', if_neg hte]
      exact ih (i + 1) (by omega) (by omega) (fun j e'' h3 h4 => hne j e'' (by omega) h4)

/-! ## Entries -/

theorem firstAt_of_hasEntry (s : State) (tag : Tag) (h : s.hasEntry tag) :
    ∃ k e, s.firstAt tag k e := by
  obtain ⟨i, e, hi, he, ht⟩ := h
  induction i using Nat.strong_induction_on generalizing e with
  | _ i ih =>
    by_cases hfirst : ∀ j e', j < i → s.tag_entries[j]? = some e' → e'.tag ≠ tag
    · exact ⟨i, e, hi, he, ht, hfirst⟩
    · push_neg at hfirst
      obtain ⟨j, e', hj, he', ht'⟩ := hfirst
      exact ih j hj e' (by omega) he' ht'

theorem hasEntry_of_firstAt {s : State} {tag : Tag} {k : Nat} {e : tag_entry_t}
    (h : s.firstAt tag k e) : s.hasEntry tag :=
  ⟨k, e, h.1, h.2.1, h.2.2.1⟩

theorem get_level_of_firstAt (floor : log_level_t) {s : State} {tag : Tag} {k : Nat}
    {e : tag_entry_t} (h : s.firstAt tag k e) : logl_get_level floor s tag = some e.level := by
  obtain ⟨hk, he, ht, hfirst⟩ := h
  have := get_loop_hit s tag k e he ht s.tag_entries_count 0 (Nat.zero_le _) (by omega)
    (fun j e' _ h2 => hfirst j e' h2)
  simp only [logl_get_level, this]

theorem get_level_of_absent (floor : log_level_t) {s : State} {tag : Tag}
    (hc : s.tag_entries_count ≤ LOGL_MAX_TAG_ENTRIES) (h : ¬ s.hasEntry tag) :
    logl_get_level floor s tag = some floor.toInt := by
  have := get_loop_miss s tag s.tag_entries_count 0 (by omega)
    (fun j e _ h2 he ht => h ⟨j, e, by omega, he, ht⟩)
  simp only [logl_get_level, this]

theorem get_level_total (floor : log_level_t) (s : State) (tag : Tag)
    (hc : s.tag_entries_count ≤ LOGL_MAX_TAG_ENTRIES) :
    ∃ l, logl_get_level floor s tag = some l := by
  by_cases h : s.hasEntry tag
  · obtain ⟨k, e, hf⟩ := firstAt_of_hasEntry s tag h
    exact ⟨_, get_level_of_firstAt floor hf⟩
  · exact ⟨_, get_level_of_absent floor hc h⟩

theorem set_level_of_firstAt (floor : log_level_t) (TAG : Tag) (now : Int) {s : State} {tag : Tag}
    (level : Int) {k : Nat} {e : tag_entry_t} (h : s.firstAt tag k e) :
    ∃ s1, logl_set_level floor TAG now s tag level = some (s1, []) ∧
      s1.tag_entries = s.tag_entries.set k { e with level := level } ∧
      s1.tag_entries_count = s.tag_entries_count := by
  obtain ⟨hk, he, ht, hfirst⟩ := h
  obtain ⟨s1, h1, h2, h3⟩ := set_loop_hit s tag level k e he ht s.tag_entries_count 0
    (Nat.zero_le _) (by omega) (fun j e' _ h2 => hfirst j e' h2)
  exact ⟨s1, by simp only [logl_set_level, h1], h2, h3⟩

theorem set_level_of_absent_free (floor : log_level_t) (TAG : Tag) (now : Int) {s : State}
    {tag : Tag} (level : Int) (h : ¬ s.hasEntry tag)
    (hc : s.tag_entries_count < LOGL_MAX_TAG_ENTRIES) :
    ∃ s1, logl_set_level floor TAG now s tag level = some (s1, []) ∧
      s1.tag_entries = s.tag_entries.set s.tag_entries_count ⟨tag, level⟩ ∧
      s1.tag_entries_count = s.tag_entries_count + 1 := by
  have hl := set_loop_miss s tag level s.tag_entries_count 0 (by omega)
    (fun j e _ h2 he ht => h ⟨j, e, by omega, he, ht⟩)
  obtain ⟨s1, h1, h2, _⟩ := store_inside s ⟨tag, level⟩ hc
  exact ⟨{ s1 with tag_entries_count := s.tag_entries_count + 1 },
    by simp only [logl_set_level, hl, if_pos hc, h1], h2, rfl⟩

theorem set_level_of_absent_full (floor : log_level_t) (TAG : Tag) (now : Int) {s : State}
    {tag : Tag} (level : Int) (h : ¬ s.hasEntry tag)
    (hc : s.tag_entries_count = LOGL_MAX_TAG_ENTRIES) :
    logl_set_level floor TAG now s tag level =
      LOG_WARN floor now TAG
        "Could not add tag %s to list: List is full. Try increasing LOGL_MAX_TAG_ENTRIES"
        [Arg.str tag] s := by
  have hl := set_loop_miss s tag level s.tag_entries_count 0 (by omega)
    (fun j e _ h2 he ht => h ⟨j, e, by omega, he, ht⟩)
  have hn : ¬ s.tag_entries_count < LOGL_MAX_TAG_ENTRIES := by omega
  simp only [logl_set_level, hl, if_neg hn]

theorem firstAt_after_update {s s1 : State} {tag : Tag} {k : Nat} {e : tag_entry_t}
    (level : Int) (h : s.firstAt tag k e)
    (h1 : s1.tag_entries = s.tag_entries.set k { e with level := level })
    (h2 : s1.tag_entries_count = s.tag_entries_count) :
    s1.firstAt tag k { e with level := level } := by
  obtain ⟨hk, he, ht, hfirst⟩ := h
  refine ⟨by omega, ?_, ht, ?_⟩
  · rw [h1]; exact read_set_same s _ (inside_of_read s he)
  · intro j e' hj he'
    rw [h1, read_set_other s _ (by omega : k ≠ j)] at he'
    exact hfirst j e' hj he'

theorem firstAt_after_insert {s s1 : State} {tag : Tag} (level : Int)
    (h : ¬ s.hasEntry tag) (hc : s.tag_entries_count < LOGL_MAX_TAG_ENTRIES)
    (h1 : s1.tag_entries = s.tag_entries.set s.tag_entries_count ⟨tag, level⟩)
    (h2 : s1.tag_entries_count = s.tag_entries_count + 1) :
    s1.firstAt tag s.tag_entries_count ⟨tag, level⟩ := by
  refine ⟨by omega, ?_, rfl, ?_⟩
  · rw [h1]; exact read_set_same s _ hc
  · intro j e' hj he' ht
    rw [h1, read_set_other s _ (by omega : s.tag_entries_count ≠ j)] at he'
    exact h ⟨j, e', hj, he', ht⟩

/-! ## What one call of `logl_set_level` does -/

theorem LOGL_LOG_state {floor : log_level_t} {now : Int} {level : log_level_t} {tag : Tag}
    {format : String} {args : List Arg} {s s1 : State} {calls : List Call}
    (h : LOGL_LOG floor now level tag format args s = some (s1, calls)) : s1 = s := by
  unfold LOGL_LOG at h
  split at h
  · split at h
    · exact absurd h (by simp)
    · cases level <;> split at h <;> simp at h <;> exact h.1.symm
  · simp at h; exact h.1.symm

theorem LOGL_LOG_returns (floor : log_level_t) (now : Int) (level : log_level_t) (tag : Tag)
    (format : String) (args : List Arg) (s : State)
    (hc : s.tag_entries_count ≤ LOGL_MAX_TAG_ENTRIES) :
    ∃ calls, LOGL_LOG floor now level tag format args s = some (s, calls) := by
  obtain ⟨tl, htl⟩ := get_level_total floor s tag hc
  unfold LOGL_LOG
  by_cases h1 : floor.toInt ≤ level.toInt <;> by_cases h2 : tl ≤ level.toInt <;>
    cases level <;> simp [h1, h2, htl]

theorem set_level_cases (floor : log_level_t) (TAG : Tag) (now : Int) (s : State) (tag : Tag)
    (level : Int) (hc : s.tag_entries_count ≤ LOGL_MAX_TAG_ENTRIES) :
    (∃ k e s1, s.firstAt tag k e ∧ logl_set_level floor TAG now s tag level = some (s1, []) ∧
        s1.tag_entries = s.tag_entries.set k { e with level := level } ∧
        s1.tag_entries_count = s.tag_entries_count) ∨
    (¬ s.hasEntry tag ∧ s.tag_entries_count < LOGL_MAX_TAG_ENTRIES ∧
      ∃ s1, logl_set_level floor TAG now s tag level = some (s1, []) ∧
        s1.tag_entries = s.tag_entries.set s.tag_entries_count ⟨tag, level⟩ ∧
        s1.tag_entries_count = s.tag_entries_count + 1) ∨
    (¬ s.hasEntry tag ∧ s.tag_entries_count = LOGL_MAX_TAG_ENTRIES ∧
      ∃ calls, logl_set_level floor TAG now s tag level = some (s, calls)) := by
  by_cases hT : s.hasEntry tag
  · obtain ⟨k, e, hf⟩ := firstAt_of_hasEntry s tag hT
    obtain ⟨s1, hs1, h1, h2⟩ := set_level_of_firstAt floor TAG now level hf
    exact Or.inl ⟨k, e, s1, hf, hs1, h1, h2⟩
  · by_cases hfree : s.tag_entries_count < LOGL_MAX_TAG_ENTRIES
    · exact Or.inr (Or.inl ⟨hT, hfree, set_level_of_absent_free floor TAG now level hT hfree⟩)
    · have hfull : s.tag_entries_count = LOGL_MAX_TAG_ENTRIES := by omega
      refine Or.inr (Or.inr ⟨hT, hfull, ?_⟩)
      rw [set_level_of_absent_full floor TAG now level hT hfull]
      exact LOGL_LOG_returns floor now LOG_LEVEL_WARN TAG _ _ s hc

theorem unique_after_update {s s1 : State} {k : Nat} {e : tag_entry_t} (level : Int)
    (hk : s.tag_entries[k]? = some e) (hu : s.unique)
    (h1 : s1.tag_entries = s.tag_entries.set k { e with level := level })
    (h2 : s1.tag_entries_count = s.tag_entries_count) : s1.unique := by
  have key : ∀ (i : Nat) (ei : tag_entry_t), s1.tag_entries[i]? = some ei →
      ∃ ei' : tag_entry_t, s.tag_entries[i]? = some ei' ∧ ei'.tag = ei.tag := by
    intro i ei hi
    by_cases hik : k = i
    · subst hik
      rw [h1, read_set_same s _ (inside_of_read s hk)] at hi
      exact ⟨e, hk, by rw [← Option.some.inj hi]⟩
    · rw [h1, read_set_other s _ hik] at hi
      exact ⟨ei, hi, rfl⟩
  intro i j ei ej hi hj hei hej ht
  obtain ⟨ei', hei', hti⟩ := key i ei hei
  obtain ⟨ej', hej', htj⟩ := key j ej hej
  exact hu i j ei' ej' (by omega) (by omega) hei' hej' (by rw [hti, htj, ht])

theorem unique_after_insert {s s1 : State} {tag : Tag} (level : Int)
    (h : ¬ s.hasEntry tag) (hc : s.tag_entries_count < LOGL_MAX_TAG_ENTRIES) (hu : s.unique)
    (h1 : s1.tag_entries = s.tag_entries.set s.tag_entries_count ⟨tag, level⟩)
    (h2 : s1.tag_entries_count = s.tag_entries_count + 1) : s1.unique := by
  have old : ∀ (i : Nat) (ei : tag_entry_t), i < s.tag_entries_count →
      s1.tag_entries[i]? = some ei →
      s.tag_entries[i]? = some ei ∧ ei.tag ≠ tag := by
    intro i ei hi hei
    rw [h1, read_set_other s _ (by omega : s.tag_entries_count ≠ i)] at hei
    exact ⟨hei, fun ht => h ⟨i, ei, hi, hei, ht⟩⟩
  have new : ∀ ei : tag_entry_t, s1.tag_entries[s.tag_entries_count]? = some ei →
      ei.tag = tag := by
    intro ei hei
    rw [h1, read_set_same s _ hc] at hei
    rw [← Option.some.inj hei]
  intro i j ei ej hi hj hei hej ht
  by_cases hi' : i < s.tag_entries_count
  · by_cases hj' : j < s.tag_entries_count
    · exact hu i j ei ej hi' hj' (old i ei hi' hei).1 (old j ej hj' hej).1 ht
    · have hj'' : j = s.tag_entries_count := by omega
      subst hj''
      exact absurd (ht.trans (new ej hej)) (old i ei hi' hei).2
  · have hi'' : i = s.tag_entries_count := by omega
    subst hi''
    by_cases hj' : j < s.tag_entries_count
    · exact absurd (ht.symm.trans (new ei hei)) (old j ej hj' hej).2
    · omega

theorem unique_init : State.init.unique := by
  intro i j _ _ hi _ _ _ _
  exact absurd hi (Nat.not_lt_zero _)

theorem reachable_invariant {floor : log_level_t} {TAG : Tag} {s : State}
    (h : Reachable floor TAG s) :
    s.tag_entries_count ≤ LOGL_MAX_TAG_ENTRIES ∧ s.unique := by
  induction h with
  | init => exact ⟨Nat.zero_le _, unique_init⟩
  | @set_level s s1 calls now tag level _ hstep ih =>
    obtain ⟨hc, hu⟩ := ih
    rcases set_level_cases floor TAG now s tag level hc with
      ⟨k, e, s2, hf, hs2, h1, h2⟩ | ⟨hT, hfree, s2, hs2, h1, h2⟩ | ⟨hT, hfull, calls2, hs2⟩
    · rw [hs2] at hstep
      obtain rfl : s2 = s1 := (Prod.mk.inj (Option.some.inj hstep)).1
      exact ⟨by omega, unique_after_update level hf.2.1 hu h1 h2⟩
    · rw [hs2] at hstep
      obtain rfl : s2 = s1 := (Prod.mk.inj (Option.some.inj hstep)).1
      exact ⟨by omega, unique_after_insert level hT hfree hu h1 h2⟩
    · rw [hs2] at hstep
      obtain rfl : s = s1 := (Prod.mk.inj (Option.some.inj hstep)).1
      exact ⟨hc, hu⟩
  | log now level tag format args _ hstep ih =>
    rw [LOGL_LOG_state hstep]
    exact ih

theorem reachable_set_levels {floor : log_level_t} {TAG : Tag} :
    ∀ (l : List (Tag × Int)) (s s1 : State), Reachable floor TAG s →
      set_levels floor TAG l s = some s1 → Reachable floor TAG s1 := by
  intro l
  induction l with
  | nil =>
    intro s s1 hr h
    simp only [set_levels, Option.some.injEq] at h
    exact h ▸ hr
  | cons p rest ih =>
    intro s s1 hr h
    obtain ⟨tag, level⟩ := p
    simp only [set_levels] at h
    split at h
    · exact absurd h (by simp)
    · next s2 calls hstep =>
      exact ih s2 s1 (Reachable.set_level 0 tag level hr hstep) h

theorem set_level_registers (floor : log_level_t) (TAG : Tag) (now : Int) (s : State)
    (T : Tag) (L : Int)
    (h : s.hasEntry T ∨ s.tag_entries_count < LOGL_MAX_TAG_ENTRIES) :
    ∃ s1 k e, logl_set_level floor TAG now s T L = some (s1, []) ∧ s1.firstAt T k e ∧
      e.level = L := by
  by_cases hT : s.hasEntry T
  · obtain ⟨k, e, hf⟩ := firstAt_of_hasEntry s T hT
    obtain ⟨s1, hs1, h1, h2⟩ := set_level_of_firstAt floor TAG now L hf
    exact ⟨s1, k, _, hs1, firstAt_after_update L hf h1 h2, rfl⟩
  · have hc : s.tag_entries_count < LOGL_MAX_TAG_ENTRIES := h.resolve_left hT
    obtain ⟨s1, hs1, h1, h2⟩ := set_level_of_absent_free floor TAG now L hT hc
    exact ⟨s1, _, _, hs1, firstAt_after_insert L hT hc h1 h2, rfl⟩

theorem LOG_WARN_value (floor : log_level_t) (now : Int) (tag : Tag) (format : String)
    (args : List Arg) (s : State) {tl : Int} (htl : logl_get_level floor s tag = some tl) :
    LOG_WARN floor now tag format args s = some (s,
      if max floor.toInt tl ≤ LOG_LEVEL_WARN.toInt then
        [Call.get_timestamp,
          Call.write (LOGL_FORMAT .W format) (Arg.num (logl_get_timestamp now) :: Arg.str tag :: args)]
      else []) := by
  unfold LOG_WARN LOGL_LOG
  by_cases h1 : floor.toInt ≤ LOG_LEVEL_WARN.toInt <;>
    by_cases h2 : tl ≤ LOG_LEVEL_WARN.toInt <;> simp [h1, h2, htl, max_le_iff]

/-! ## Filter -/

/-- C1. Filter correctness of `LOGL_LOG`: in every registry state (entry count
within the capacity), for every floor value, event level `E` and tag `T`, the
invocation returns, and it hands a line to the write sink if and only if
`E >= max(floor, logl_get_level(T))`. -/
theorem LOGL_LOG_emits_iff (floor : log_level_t) (now : Int) (E : log_level_t) (T : Tag)
    (format : String) (args : List Arg) (s : State)
    (hc : s.tag_entries_count ≤ LOGL_MAX_TAG_ENTRIES) :
    ∃ tag_level calls, logl_get_level floor s T = some tag_level ∧
      LOGL_LOG floor now E T format args s = some (s, calls) ∧
      ((∃ line a, Call.write line a ∈ calls) ↔ max floor.toInt tag_level ≤ E.toInt) := by
  obtain ⟨tl, htl⟩ := get_level_total floor s T hc
  refine ⟨tl, ?_⟩
  unfold LOGL_LOG
  by_cases h1 : floor.toInt ≤ E.toInt <;> by_cases h2 : tl ≤ E.toInt <;>
    cases E <;> simp [h1, h2, htl, max_le_iff]

theorem LOGL_LOG_emits_iff_witness :
    twoTags.tag_entries_count ≤ LOGL_MAX_TAG_ENTRIES ∧
    ∃ tag_level calls, logl_get_level LOG_LEVEL_INFO twoTags 2 = some tag_level ∧
      LOGL_LOG LOG_LEVEL_INFO 5 LOG_LEVEL_WARN 2 "x" [] twoTags = some (twoTags, calls) ∧
      ((∃ line a, Call.write line a ∈ calls) ↔
        max LOG_LEVEL_INFO.toInt tag_level ≤ LOG_LEVEL_WARN.toInt) :=
  ⟨by decide, LOGL_LOG_emits_iff LOG_LEVEL_INFO 5 LOG_LEVEL_WARN 2 "x" [] twoTags (by decide)⟩

/-! ## Registry -/

/-- C2. Get after set: in every registry state, if `T` already has an entry or
the entry count is below `LOGL_MAX_TAG_ENTRIES`, then `logl_set_level(T, L)`
returns and afterwards `logl_get_level(T)` returns `L`; the first disjunct
covers an update in a full table. -/
theorem get_level_after_set_level (floor : log_level_t) (TAG : Tag) (now : Int) (s : State)
    (T : Tag) (L : Int)
    (h : s.hasEntry T ∨ s.tag_entries_count < LOGL_MAX_TAG_ENTRIES) :
    ∃ s1 calls, logl_set_level floor TAG now s T L = some (s1, calls) ∧
      logl_get_level floor s1 T = some L := by
  obtain ⟨s1, k, e, hs1, hf, hL⟩ := set_level_registers floor TAG now s T L h
  exact ⟨s1, [], hs1, hL ▸ get_level_of_firstAt floor hf⟩

theorem get_level_after_set_level_witness :
    (fullRegistry.hasEntry 105 ∨ fullRegistry.tag_entries_count < LOGL_MAX_TAG_ENTRIES) ∧
    ∃ s1 calls, logl_set_level LOG_LEVEL_DEBUG 7 0 fullRegistry 105 LOG_LEVEL_ERROR.toInt
        = some (s1, calls) ∧
      logl_get_level LOG_LEVEL_DEBUG s1 105 = some LOG_LEVEL_ERROR.toInt :=
  ⟨Or.inl (by decide),
    get_level_after_set_level LOG_LEVEL_DEBUG 7 0 fullRegistry 105 LOG_LEVEL_ERROR.toInt
      (Or.inl (by decide))⟩

/-- C4. Default fallback: in every registry state in which `T` has no entry,
`logl_get_level(T)` returns the default level `LOGL_MIN_LOG_LEVEL`, which is
`LOG_LEVEL_DEBUG`, the least of all levels. (With another floor value the
default is that floor.) -/
theorem get_level_default (s : State) (T : Tag)
    (hc : s.tag_entries_count ≤ LOGL_MAX_TAG_ENTRIES) (h : ¬ s.hasEntry T) :
    logl_get_level LOGL_MIN_LOG_LEVEL s T = some LOG_LEVEL_DEBUG.toInt ∧
      (∀ l : log_level_t, LOG_LEVEL_DEBUG.toInt ≤ l.toInt) ∧
      ∀ floor, logl_get_level floor s T = some floor.toInt :=
  ⟨get_level_of_absent LOGL_MIN_LOG_LEVEL hc h, fun l => by cases l <;> decide,
    fun floor => get_level_of_absent floor hc h⟩

theorem get_level_default_witness :
    State.init.tag_entries_count ≤ LOGL_MAX_TAG_ENTRIES ∧ ¬ State.init.hasEntry 42 ∧
    logl_get_level LOGL_MIN_LOG_LEVEL State.init 42 = some LOG_LEVEL_DEBUG.toInt ∧
      (∀ l : log_level_t, LOG_LEVEL_DEBUG.toInt ≤ l.toInt) ∧
      ∀ floor, logl_get_level floor State.init 42 = some floor.toInt :=
  ⟨by decide, by decide, get_level_default State.init 42 (by decide) (by decide)⟩

/-- C3, amended. Idempotent set: in every reachable registry state, if `T`
already has an entry or the entry count is below `LOGL_MAX_TAG_ENTRIES`, then
after `logl_set_level(T, L1)` followed by `logl_set_level(T, L2)` exactly one of
the first `tag_entries_count` slots holds `T`, its level is `L2`, and the entry
count is the one left by the first call. -/
theorem set_level_twice (floor : log_level_t) (TAG : Tag) (now1 now2 : Int) (s : State)
    (T : Tag) (L1 L2 : Int) (hr : Reachable floor TAG s)
    (h : s.hasEntry T ∨ s.tag_entries_count < LOGL_MAX_TAG_ENTRIES) :
    ∃ s1 s2 c1 c2, logl_set_level floor TAG now1 s T L1 = some (s1, c1) ∧
      logl_set_level floor TAG now2 s1 T L2 = some (s2, c2) ∧
      (∃ k, k < s2.tag_entries_count ∧ s2.tag_entries[k]? = some ⟨T, L2⟩ ∧
        ∀ j e, j < s2.tag_entries_count → s2.tag_entries[j]? = some e → e.tag = T → j = k) ∧
      s2.tag_entries_count = s1.tag_entries_count := by
  obtain ⟨s1, k, e, hs1, hf, _⟩ := set_level_registers floor TAG now1 s T L1 h
  obtain ⟨s2, hs2, h1, h2⟩ := set_level_of_firstAt floor TAG now2 L2 hf
  have hf2 := firstAt_after_update L2 hf h1 h2
  have hr2 : Reachable floor TAG s2 :=
    Reachable.set_level now2 T L2 (Reachable.set_level now1 T L1 hr hs1) hs2
  have hu := (reachable_invariant hr2).2
  refine ⟨s1, s2, [], [], hs1, hs2, ⟨k, hf2.1, ?_, ?_⟩, h2⟩
  · rw [hf2.2.1, ← hf.2.2.1]
  · intro j e' hj he' ht
    exact hu j k e' _ hj hf2.1 he' hf2.2.1 (ht.trans hf2.2.2.1.symm)

theorem set_level_twice_witness :
    Reachable LOG_LEVEL_DEBUG 7 State.init ∧
    (State.init.hasEntry 42 ∨ State.init.tag_entries_count < LOGL_MAX_TAG_ENTRIES) ∧
    ∃ s1 s2 c1 c2,
      logl_set_level LOG_LEVEL_DEBUG 7 0 State.init 42 LOG_LEVEL_INFO.toInt = some (s1, c1) ∧
      logl_set_level LOG_LEVEL_DEBUG 7 1 s1 42 LOG_LEVEL_ERROR.toInt = some (s2, c2) ∧
      (∃ k, k < s2.tag_entries_count ∧ s2.tag_entries[k]? = some ⟨42, LOG_LEVEL_ERROR.toInt⟩ ∧
        ∀ j e, j < s2.tag_entries_count → s2.tag_entries[j]? = some e → e.tag = 42 → j = k) ∧
      s2.tag_entries_count = s1.tag_entries_count :=
  ⟨Reachable.init, Or.inr (by decide),
    set_level_twice LOG_LEVEL_DEBUG 7 0 1 State.init 42 LOG_LEVEL_INFO.toInt LOG_LEVEL_ERROR.toInt
      Reachable.init (Or.inr (by decide))⟩

/-- C3 as stated fails: the full registry `fullRegistry` is reachable, tag 500
has no entry in it, and after `logl_set_level(500, INFO)` followed by
`logl_set_level(500, WARN)` the registry still holds no entry for tag 500. -/
theorem set_level_twice_full_counterexample :
    Reachable LOGL_MIN_LOG_LEVEL 7 fullRegistry ∧
    ∃ s1 s2 c1 c2,
      logl_set_level LOGL_MIN_LOG_LEVEL 7 0 fullRegistry 500 LOG_LEVEL_INFO.toInt = some (s1, c1) ∧
      logl_set_level LOGL_MIN_LOG_LEVEL 7 0 s1 500 LOG_LEVEL_WARN.toInt = some (s2, c2) ∧
      ¬ s2.hasEntry 500 :=
  ⟨reachable_set_levels ((List.range 20).map fun i => (100 + i, LOG_LEVEL_INFO.toInt)) State.init _
      Reachable.init (by decide),
    fullRegistry, fullRegistry,
    [Call.get_timestamp, Call.write
      (LOGL_FORMAT .W "Could not add tag %s to list: List is full. Try increasing LOGL_MAX_TAG_ENTRIES")
      [Arg.num 0, Arg.str 7, Arg.str 500]],
    [Call.get_timestamp, Call.write
      (LOGL_FORMAT .W "Could not add tag %s to list: List is full. Try increasing LOGL_MAX_TAG_ENTRIES")
      [Arg.num 0, Arg.str 7, Arg.str 500]],
    by decide, by decide, by decide⟩

/-- C5. Capacity overflow leaves the state unchanged: when the entry count
equals `LOGL_MAX_TAG_ENTRIES` and `T` has no entry, `logl_set_level(T, L)`
returns with the entry count and the whole array as they were, so
`logl_get_level` of every tag returns what it returned before. -/
theorem set_level_full_unchanged (floor : log_level_t) (TAG : Tag) (now : Int) (s : State)
    (T : Tag) (L : Int) (hc : s.tag_entries_count = LOGL_MAX_TAG_ENTRIES)
    (h : ¬ s.hasEntry T) :
    LOGL_MAX_TAG_ENTRIES = 20 ∧
    ∃ s1 calls, logl_set_level floor TAG now s T L = some (s1, calls) ∧
      s1.tag_entries_count = s.tag_entries_count ∧ s1.tag_entries = s.tag_entries ∧
      ∀ T', logl_get_level floor s1 T' = logl_get_level floor s T' := by
  refine ⟨rfl, ?_⟩
  rw [set_level_of_absent_full floor TAG now L h hc]
  obtain ⟨calls, hcalls⟩ := LOGL_LOG_returns floor now LOG_LEVEL_WARN TAG
    "Could not add tag %s to list: List is full. Try increasing LOGL_MAX_TAG_ENTRIES"
    [Arg.str T] s (by omega)
  exact ⟨s, calls, hcalls, rfl, rfl, fun _ => rfl⟩

theorem set_level_full_unchanged_witness :
    fullRegistry.tag_entries_count = LOGL_MAX_TAG_ENTRIES ∧ ¬ fullRegistry.hasEntry 500 ∧
    LOGL_MAX_TAG_ENTRIES = 20 ∧
    ∃ s1 calls, logl_set_level LOG_LEVEL_DEBUG 7 0 fullRegistry 500 LOG_LEVEL_ERROR.toInt
        = some (s1, calls) ∧
      s1.tag_entries_count = fullRegistry.tag_entries_count ∧
      s1.tag_entries = fullRegistry.tag_entries ∧
      ∀ T', logl_get_level LOG_LEVEL_DEBUG s1 T' = logl_get_level LOG_LEVEL_DEBUG fullRegistry T' :=
  ⟨by decide, by decide,
    set_level_full_unchanged LOG_LEVEL_DEBUG 7 0 fullRegistry 500 LOG_LEVEL_ERROR.toInt
      (by decide) (by decide)⟩

/-- C6, amended. The capacity-exceeded diagnostic goes through the same filter
as every other line: when the entry count equals `LOGL_MAX_TAG_ENTRIES` and `T`
has no entry, `logl_set_level(T, L)` hands the write sink one WARN-level line
under the library's tag `TAG` that names `T` if
`LOG_LEVEL_WARN >= max(LOGL_MIN_LOG_LEVEL, logl_get_level(TAG))`, and makes no
call at all otherwise. With the shipped floor and no entry for `TAG` the line
is written. -/
theorem set_level_full_diagnostic (floor : log_level_t) (TAG : Tag) (now : Int) (s : State)
    (T : Tag) (L : Int) (hc : s.tag_entries_count = LOGL_MAX_TAG_ENTRIES)
    (h : ¬ s.hasEntry T) :
    (∃ tag_level, logl_get_level floor s TAG = some tag_level ∧
      logl_set_level floor TAG now s T L = some (s,
        if max floor.toInt tag_level ≤ LOG_LEVEL_WARN.toInt then
          [Call.get_timestamp,
            Call.write
            (LOGL_FORMAT .W
              "Could not add tag %s to list: List is full. Try increasing LOGL_MAX_TAG_ENTRIES")
              [Arg.num (logl_get_timestamp now), Arg.str TAG, Arg.str T]]
        else [])) ∧
    (¬ s.hasEntry TAG →
      logl_set_level LOGL_MIN_LOG_LEVEL TAG now s T L = some (s,
        [Call.get_timestamp,
          Call.write
            (LOGL_FORMAT .W
              "Could not add tag %s to list: List is full. Try increasing LOGL_MAX_TAG_ENTRIES")
            [Arg.num (logl_get_timestamp now), Arg.str TAG, Arg.str T]])) := by
  have hle : s.tag_entries_count ≤ LOGL_MAX_TAG_ENTRIES := by omega
  constructor
  · obtain ⟨tl, htl⟩ := get_level_total floor s TAG hle
    refine ⟨tl, htl, ?_⟩
    rw [set_level_of_absent_full floor TAG now L h hc]
    exact LOG_WARN_value floor now TAG _ [Arg.str T] s htl
  · intro hTAG
    rw [set_level_of_absent_full LOGL_MIN_LOG_LEVEL TAG now L h hc,
      LOG_WARN_value LOGL_MIN_LOG_LEVEL now TAG _ [Arg.str T] s
        (get_level_of_absent LOGL_MIN_LOG_LEVEL hle hTAG)]
    rfl

theorem set_level_full_diagnostic_witness :
    fullRegistry.tag_entries_count = LOGL_MAX_TAG_ENTRIES ∧ ¬ fullRegistry.hasEntry 500 ∧
    ¬ fullRegistry.hasEntry 7 ∧
    logl_set_level LOGL_MIN_LOG_LEVEL 7 0 fullRegistry 500 LOG_LEVEL_INFO.toInt = some (fullRegistry,
      [Call.get_timestamp,
        Call.write
            (LOGL_FORMAT .W
              "Could not add tag %s to list: List is full. Try increasing LOGL_MAX_TAG_ENTRIES")
          [Arg.num (logl_get_timestamp 0), Arg.str 7, Arg.str 500]]) :=
  ⟨by decide, by decide, by decide,
    (set_level_full_diagnostic LOGL_MIN_LOG_LEVEL 7 0 fullRegistry 500 LOG_LEVEL_INFO.toInt
      (by decide) (by decide)).2 (by decide)⟩

/-- C6 as stated fails: `silencedRegistry` is reachable with the shipped floor,
it is full, it stores level ERROR for the library's own tag (address 7), tag 500
has no entry, and `logl_set_level(500, INFO)` makes no call to the write sink.
The same happens on `fullRegistry`, which has no entry for the library's tag,
when the floor is configured as `LOG_LEVEL_ERROR`. -/
theorem set_level_full_diagnostic_counterexample :
    (Reachable LOGL_MIN_LOG_LEVEL 7 silencedRegistry ∧
      silencedRegistry.tag_entries_count = LOGL_MAX_TAG_ENTRIES ∧
      ¬ silencedRegistry.hasEntry 500 ∧
      logl_set_level LOGL_MIN_LOG_LEVEL 7 0 silencedRegistry 500 LOG_LEVEL_INFO.toInt
        = some (silencedRegistry, [])) ∧
    (Reachable LOG_LEVEL_ERROR 7 fullRegistry ∧
      fullRegistry.tag_entries_count = LOGL_MAX_TAG_ENTRIES ∧
      ¬ fullRegistry.hasEntry 500 ∧
      logl_set_level LOG_LEVEL_ERROR 7 0 fullRegistry 500 LOG_LEVEL_INFO.toInt
        = some (fullRegistry, [])) :=
  ⟨⟨reachable_set_levels
      ((7, LOG_LEVEL_ERROR.toInt) :: (List.range 19).map fun i => (100 + i, LOG_LEVEL_INFO.toInt))
      State.init _ Reachable.init (by decide),
    by decide, by decide, by decide⟩,
   ⟨reachable_set_levels ((List.range 20).map fun i => (100 + i, LOG_LEVEL_INFO.toInt)) State.init _
      Reachable.init (by decide),
    by decide, by decide, by decide⟩⟩

/-! ## Invariants -/

/-- C7. Uniqueness invariant: in every state reachable from the empty registry
by `logl_set_level` calls and logging invocations, no two different slots among
the first `tag_entries_count` hold the same tag. -/
theorem reachable_unique (floor : log_level_t) (TAG : Tag) (s : State)
    (hr : Reachable floor TAG s) :
    ∀ i j ei ej, i < s.tag_entries_count → j < s.tag_entries_count →
      s.tag_entries[i]? = some ei → s.tag_entries[j]? = some ej → i ≠ j → ei.tag ≠ ej.tag :=
  fun i j ei ej hi hj hei hej hne ht => hne ((reachable_invariant hr).2 i j ei ej hi hj hei hej ht)

theorem reachable_unique_witness :
    Reachable LOG_LEVEL_DEBUG 7 fullRegistry ∧
    ∀ i j ei ej, i < fullRegistry.tag_entries_count → j < fullRegistry.tag_entries_count →
      fullRegistry.tag_entries[i]? = some ei → fullRegistry.tag_entries[j]? = some ej →
      i ≠ j → ei.tag ≠ ej.tag :=
  ⟨reachable_set_levels ((List.range 20).map fun i => (100 + i, LOG_LEVEL_INFO.toInt)) State.init _
      Reachable.init (by decide),
    reachable_unique LOG_LEVEL_DEBUG 7 fullRegistry
      (reachable_set_levels ((List.range 20).map fun i => (100 + i, LOG_LEVEL_INFO.toInt)) State.init _
        Reachable.init (by decide))⟩

/-- C8. Capacity invariant: in every reachable state
`tag_entries_count <= LOGL_MAX_TAG_ENTRIES` (20); every slot below the count is a
slot of the array, and `logl_get_level` and `logl_set_level` run on it for every
argument without an access outside `tag_entries`. -/
theorem reachable_capacity (floor : log_level_t) (TAG : Tag) (s : State)
    (hr : Reachable floor TAG s) :
    s.tag_entries_count ≤ LOGL_MAX_TAG_ENTRIES ∧ LOGL_MAX_TAG_ENTRIES = 20 ∧
      (∀ i, i < s.tag_entries_count → ∃ e, s.tag_entries[i]? = some e) ∧
      (∀ T, ∃ l, logl_get_level floor s T = some l) ∧
      (∀ now T L, ∃ s1 calls, logl_set_level floor TAG now s T L = some (s1, calls)) := by
  have hc := (reachable_invariant hr).1
  refine ⟨hc, rfl, fun i hi => read_inside s (by omega), fun T => get_level_total floor s T hc, ?_⟩
  intro now T L
  rcases set_level_cases floor TAG now s T L hc with
    ⟨_, _, s1, _, hs1, _⟩ | ⟨_, _, s1, hs1, _⟩ | ⟨_, _, calls, hs⟩
  · exact ⟨s1, [], hs1⟩
  · exact ⟨s1, [], hs1⟩
  · exact ⟨s, calls, hs⟩

theorem reachable_capacity_witness :
    Reachable LOG_LEVEL_DEBUG 7 fullRegistry ∧
    fullRegistry.tag_entries_count ≤ LOGL_MAX_TAG_ENTRIES ∧ LOGL_MAX_TAG_ENTRIES = 20 ∧
      (∀ i, i < fullRegistry.tag_entries_count → ∃ e, fullRegistry.tag_entries[i]? = some e) ∧
      (∀ T, ∃ l, logl_get_level LOG_LEVEL_DEBUG fullRegistry T = some l) ∧
      (∀ now T L, ∃ s1 calls,
        logl_set_level LOG_LEVEL_DEBUG 7 now fullRegistry T L = some (s1, calls)) :=
  ⟨reachable_set_levels ((List.range 20).map fun i => (100 + i, LOG_LEVEL_INFO.toInt)) State.init _
      Reachable.init (by decide),
    reachable_capacity LOG_LEVEL_DEBUG 7 fullRegistry
      (reachable_set_levels ((List.range 20).map fun i => (100 + i, LOG_LEVEL_INFO.toInt)) State.init _
        Reachable.init (by decide))⟩

/-! ## Suppression and presentation -/

/-- C9. No side effects on suppression: if `E < LOGL_MIN_LOG_LEVEL` or
`E < logl_get_level(T)`, the logging invocation makes no call to
`logl_get_timestamp` or `logl_write` and leaves the registry as it was. -/
theorem LOGL_LOG_suppressed (floor : log_level_t) (now : Int) (E : log_level_t) (T : Tag)
    (format : String) (args : List Arg) (s : State)
    (h : E.toInt < floor.toInt ∨
      ∃ tag_level, logl_get_level floor s T = some tag_level ∧ E.toInt < tag_level) :
    LOGL_LOG floor now E T format args s = some (s, []) := by
  unfold LOGL_LOG
  by_cases hf : floor.toInt ≤ E.toInt
  · rcases h with h | ⟨tl, htl, hlt⟩
    · omega
    · have hn : ¬ tl ≤ E.toInt := by omega
      simp only [if_pos hf, htl, if_neg hn]
  · rw [if_neg hf]

theorem LOGL_LOG_suppressed_witness :
    (LOG_LEVEL_INFO.toInt < LOG_LEVEL_DEBUG.toInt ∨
      ∃ tag_level, logl_get_level LOG_LEVEL_DEBUG twoTags 2 = some tag_level ∧
        LOG_LEVEL_INFO.toInt < tag_level) ∧
    LOGL_LOG LOG_LEVEL_DEBUG 9 LOG_LEVEL_INFO 2 "x" [] twoTags = some (twoTags, []) :=
  ⟨Or.inr ⟨LOG_LEVEL_WARN.toInt, by decide, by decide⟩,
    LOGL_LOG_suppressed LOG_LEVEL_DEBUG 9 LOG_LEVEL_INFO 2 "x" [] twoTags
      (Or.inr ⟨LOG_LEVEL_WARN.toInt, by decide, by decide⟩)⟩

/-- C10. Level-to-presentation table: whenever a logging invocation of level
`E` hands a format string to `logl_write`, that string is the colour code of `E`,
then the letter of `E`, then the rest of the line, with colour and letter as in
the table (DEBUG: none and D, INFO: green and I, WARN: yellow/brown and W,
ERROR: red and E); it does not start with the colour and letter of any other
level, and no two levels share a letter or a colour. -/
theorem LOGL_LOG_presentation (floor : log_level_t) (now : Int) (E : log_level_t) (T : Tag)
    (format : String) (args : List Arg) (s s1 : State) (calls : List Call) (line : String)
    (a : List Arg) (h : LOGL_LOG floor now E T format args s = some (s1, calls))
    (hw : Call.write line a ∈ calls) :
    (∃ rest, line = (presentation E).1 ++ ((presentation E).2 ++ rest)) ∧
    (∀ E', E' ≠ E → ¬ ∃ rest, line = (presentation E').1 ++ ((presentation E').2 ++ rest)) ∧
    (∀ E', E' ≠ E → (presentation E').1 ≠ (presentation E).1 ∧
      (presentation E').2 ≠ (presentation E).2) := by
  have hline : line = LOGL_FORMAT
      (match E with
        | LOG_LEVEL_DEBUG => .D | LOG_LEVEL_INFO => .I
        | LOG_LEVEL_WARN => .W | LOG_LEVEL_ERROR => .E) format := by
    unfold LOGL_LOG at h
    split at h
    · split at h
      · exact absurd h (by simp)
      · split at h
        · cases E <;> simp at h <;> obtain ⟨_, rfl⟩ := h <;> simp at hw <;> exact hw.1
        · simp at h; obtain ⟨_, rfl⟩ := h; simp at hw
    · simp at h; obtain ⟨_, rfl⟩ := h; simp at hw
  refine ⟨?_, ?_, ?_⟩
  · subst hline
    cases E <;> exact ⟨_, rfl⟩
  · intro E' hne ⟨rest, hrest⟩
    rw [hline] at hrest
    have hd := congrArg String.data hrest
    cases E <;> cases E' <;>
      simp [LOGL_FORMAT, LOGL_COLOR, Letter.stringify, presentation, String.data_append] at hd hne
  · intro E' hne
    cases E <;> cases E' <;> simp [presentation] at hne ⊢

theorem LOGL_LOG_presentation_witness :
    LOGL_LOG LOG_LEVEL_DEBUG 0 LOG_LEVEL_ERROR 5 "x" [] State.init = some (State.init,
      [Call.get_timestamp, Call.write "\x1b[0;31mE (%lu) %s: x\x1b[0m\r\n" [Arg.num 0, Arg.str 5]]) ∧
    Call.write "\x1b[0;31mE (%lu) %s: x\x1b[0m\r\n" [Arg.num 0, Arg.str 5] ∈
      [Call.get_timestamp, Call.write "\x1b[0;31mE (%lu) %s: x\x1b[0m\r\n" [Arg.num 0, Arg.str 5]] ∧
    (∃ rest, "\x1b[0;31mE (%lu) %s: x\x1b[0m\r\n" =
      (presentation LOG_LEVEL_ERROR).1 ++ ((presentation LOG_LEVEL_ERROR).2 ++ rest)) ∧
    (∀ E', E' ≠ LOG_LEVEL_ERROR → ¬ ∃ rest, "\x1b[0;31mE (%lu) %s: x\x1b[0m\r\n" =
      (presentation E').1 ++ ((presentation E').2 ++ rest)) ∧
    (∀ E', E' ≠ LOG_LEVEL_ERROR → (presentation E').1 ≠ (presentation LOG_LEVEL_ERROR).1 ∧
      (presentation E').2 ≠ (presentation LOG_LEVEL_ERROR).2) :=
  ⟨by decide, by decide,
    LOGL_LOG_presentation LOG_LEVEL_DEBUG 0 LOG_LEVEL_ERROR 5 "x" [] State.init State.init
      [Call.get_timestamp, Call.write "\x1b[0;31mE (%lu) %s: x\x1b[0m\r\n" [Arg.num 0, Arg.str 5]]
      "\x1b[0;31mE (%lu) %s: x\x1b[0m\r\n" [Arg.num 0, Arg.str 5] (by decide) (by decide)⟩

/-! ## Line layout -/

theorem get_loop_congr (s1 s : State) (tag : Tag) :
    ∀ n i, (∀ j, i ≤ j → j < i + n → s1.tag_entries[j]? = s.tag_entries[j]? ∨
        ∃ e1 e, s1.tag_entries[j]? = some e1 ∧ s.tag_entries[j]? = some e ∧
          e1.tag ≠ tag ∧ e.tag ≠ tag) →
      logl_get_level_loop s1 tag n i = logl_get_level_loop s tag n i := by
  intro n
  induction n with
  | zero => intro i _; rfl
  | succ n ih =>
    intro i hj
    have hrec := ih (i + 1) (fun j h1 h2 => hj j (by omega) (by omega))
    rcases hj i (le_refl _) (by omega) with heq | ⟨e1, e, h1, h2, ht1, ht⟩
    · simp only [logl_get_level_loop, heq, hrec]
    · simp only [logl_get_level_loop, h1, h2, if_neg ht1, if_neg ht, hrec]

theorem get_loop_snoc (s : State) (tag : Tag) :
    ∀ n i e, s.tag_entries[i + n]? = some e → e.tag ≠ tag →
      logl_get_level_loop s tag (n + 1) i = logl_get_level_loop s tag n i := by
  intro n
  induction n with
  | zero =>
    intro i e he ht
    simp only [Nat.add_zero] at he
    simp only [logl_get_level_loop, he, if_neg ht]
  | succ n ih =>
    intro i e he ht
    have hrec := ih (i + 1) e (by rw [← he]; congr 1; omega) ht
    rw [logl_get_level_loop, hrec]
    conv_rhs => rw [logl_get_level_loop]

theorem get_level_after_update_other (floor : log_level_t) {s s1 : State} {T T' : Tag}
    {k : Nat} {e : tag_entry_t} (level : Int) (hne : T' ≠ T)
    (hk : s.tag_entries[k]? = some e) (ht : e.tag = T)
    (h1 : s1.tag_entries = s.tag_entries.set k { e with level := level })
    (h2 : s1.tag_entries_count = s.tag_entries_count) :
    logl_get_level floor s1 T' = logl_get_level floor s T' := by
  have hl : logl_get_level_loop s1 T' s.tag_entries_count 0 =
      logl_get_level_loop s T' s.tag_entries_count 0 := by
    apply get_loop_congr
    intro j _ _
    by_cases hjk : k = j
    · subst hjk
      refine Or.inr ⟨{ e with level := level }, e, ?_, hk, ?_, ?_⟩
      · rw [h1]; exact read_set_same s _ (inside_of_read s hk)
      · exact fun h => hne (h.symm.trans ht)
      · exact fun h => hne (h.symm.trans ht)
    · exact Or.inl (by rw [h1]; exact read_set_other s _ hjk)
  simp only [logl_get_level, h2, hl]

theorem get_level_after_insert_other (floor : log_level_t) {s s1 : State} {T T' : Tag}
    (level : Int) (hne : T' ≠ T) (hc : s.tag_entries_count < LOGL_MAX_TAG_ENTRIES)
    (h1 : s1.tag_entries = s.tag_entries.set s.tag_entries_count ⟨T, level⟩)
    (h2 : s1.tag_entries_count = s.tag_entries_count + 1) :
    logl_get_level floor s1 T' = logl_get_level floor s T' := by
  have hnew : s1.tag_entries[0 + s.tag_entries_count]? = some ⟨T, level⟩ := by
    rw [Nat.zero_add, h1]; exact read_set_same s _ hc
  have hsnoc := get_loop_snoc s1 T' s.tag_entries_count 0 ⟨T, level⟩ hnew (fun h => hne h.symm)
  have hl : logl_get_level_loop s1 T' s.tag_entries_count 0 =
      logl_get_level_loop s T' s.tag_entries_count 0 := by
    apply get_loop_congr
    intro j _ hj
    exact Or.inl (by rw [h1]; exact read_set_other s _ (by omega))
  simp only [logl_get_level, h2, hsnoc, hl]

theorem set_level_frame (floor : log_level_t) (TAG : Tag) (now : Int) (s : State) (T T' : Tag)
    (L : Int) (hne : T' ≠ T) (hc : s.tag_entries_count ≤ LOGL_MAX_TAG_ENTRIES) :
    ∃ s1 calls, logl_set_level floor TAG now s T L = some (s1, calls) ∧
      logl_get_level floor s1 T' = logl_get_level floor s T' := by
  rcases set_level_cases floor TAG now s T L hc with
    ⟨k, e, s1, hf, hs1, h1, h2⟩ | ⟨_, hfree, s1, hs1, h1, h2⟩ | ⟨_, _, calls, hs⟩
  · exact ⟨s1, [], hs1, get_level_after_update_other floor L hne hf.2.1 hf.2.2.1 h1 h2⟩
  · exact ⟨s1, [], hs1, get_level_after_insert_other floor L hne hfree h1 h2⟩
  · exact ⟨s, calls, hs, rfl⟩

theorem hasEntry_after_insert {s s1 : State} {T T' : Tag} (level : Int)
    (h1 : s1.tag_entries = s.tag_entries.set s.tag_entries_count ⟨T, level⟩)
    (h2 : s1.tag_entries_count = s.tag_entries_count + 1) (h : s1.hasEntry T') :
    T' = T ∨ s.hasEntry T' := by
  obtain ⟨i, e, hi, he, ht⟩ := h
  by_cases hin : i < s.tag_entries_count
  · rw [h1, read_set_other s _ (by omega : s.tag_entries_count ≠ i)] at he
    exact Or.inr ⟨i, e, hin, he, ht⟩
  · have hi' : i = s.tag_entries_count := by omega
    subst hi'
    have hin20 := inside_of_read s1 he
    rw [h1, read_set_same s _ hin20] at he
    left
    rw [← ht, ← Option.some.inj he]

/-- C12. Each tag has its own level: in every registry state, for tags
`T' ≠ T` and every level `L`, `logl_set_level(T, L)` returns and
`logl_get_level(T')` returns afterwards what it returned before. -/
theorem set_level_other_tag (floor : log_level_t) (TAG : Tag) (now : Int) (s : State)
    (T T' : Tag) (L : Int) (hne : T' ≠ T)
    (hc : s.tag_entries_count ≤ LOGL_MAX_TAG_ENTRIES) :
    ∃ s1 calls, logl_set_level floor TAG now s T L = some (s1, calls) ∧
      logl_get_level floor s1 T' = logl_get_level floor s T' :=
  set_level_frame floor TAG now s T T' L hne hc

theorem set_level_other_tag_witness :
    (2 : Tag) ≠ 1 ∧ twoTags.tag_entries_count ≤ LOGL_MAX_TAG_ENTRIES ∧
    ∃ s1 calls, logl_set_level LOG_LEVEL_DEBUG 7 0 twoTags 1 LOG_LEVEL_ERROR.toInt = some (s1, calls) ∧
      logl_get_level LOG_LEVEL_DEBUG s1 2 = logl_get_level LOG_LEVEL_DEBUG twoTags 2 :=
  ⟨by decide, by decide,
    set_level_other_tag LOG_LEVEL_DEBUG 7 0 twoTags 1 2 LOG_LEVEL_ERROR.toInt (by decide) (by decide)⟩

/-! ## Identity of tags, first match, append-only -/

/-- C13. Tags are matched by pointer identity, not by content: in every state
with at least two free slots, for two tags with equal text (`mem T1 = mem T2`)
but different addresses, neither registered, `logl_set_level` on the first and
then on the second stores two entries (the count grows by 2) and
`logl_get_level` of each returns the level set for that address. -/
theorem set_level_equal_text (mem : Tag → String) (floor : log_level_t) (TAG : Tag)
    (now1 now2 : Int) (s : State) (T1 T2 : Tag) (L1 L2 : Int)
    (_htext : mem T1 = mem T2) (hne : T1 ≠ T2)
    (hfree : s.tag_entries_count + 2 ≤ LOGL_MAX_TAG_ENTRIES)
    (h1 : ¬ s.hasEntry T1) (h2 : ¬ s.hasEntry T2) :
    ∃ s1 s2, logl_set_level floor TAG now1 s T1 L1 = some (s1, []) ∧
      logl_set_level floor TAG now2 s1 T2 L2 = some (s2, []) ∧
      s2.tag_entries_count = s.tag_entries_count + 2 ∧
      s2.tag_entries[s.tag_entries_count]? = some ⟨T1, L1⟩ ∧
      s2.tag_entries[s.tag_entries_count + 1]? = some ⟨T2, L2⟩ ∧
      logl_get_level floor s2 T1 = some L1 ∧ logl_get_level floor s2 T2 = some L2 := by
  have hc1 : s.tag_entries_count < LOGL_MAX_TAG_ENTRIES := by omega
  obtain ⟨s1, hs1, e1, c1⟩ := set_level_of_absent_free floor TAG now1 L1 h1 hc1
  have hf1 := firstAt_after_insert L1 h1 hc1 e1 c1
  have h2' : ¬ s1.hasEntry T2 := fun h =>
    (hasEntry_after_insert L1 e1 c1 h).elim (fun h => hne h.symm) h2
  have hc2 : s1.tag_entries_count < LOGL_MAX_TAG_ENTRIES := by omega
  obtain ⟨s2, hs2, e2, c2⟩ := set_level_of_absent_free floor TAG now2 L2 h2' hc2
  have hf2 := firstAt_after_insert L2 h2' hc2 e2 c2
  refine ⟨s1, s2, hs1, hs2, by omega, ?_, ?_, ?_, get_level_of_firstAt floor hf2⟩
  · rw [e2, read_set_other s1 _ (by omega), e1]
    exact read_set_same s _ hc1
  · rw [e2, ← c1]
    exact read_set_same s1 _ hc2
  · rw [get_level_after_insert_other floor L2 hne hc2 e2 c2]
    exact get_level_of_firstAt floor hf1

theorem set_level_equal_text_witness :
    (fun _ : Tag => "net") 1 = (fun _ : Tag => "net") 2 ∧ (1 : Tag) ≠ 2 ∧
    State.init.tag_entries_count + 2 ≤ LOGL_MAX_TAG_ENTRIES ∧
    ¬ State.init.hasEntry 1 ∧ ¬ State.init.hasEntry 2 ∧
    ∃ s1 s2, logl_set_level LOG_LEVEL_DEBUG 7 0 State.init 1 LOG_LEVEL_INFO.toInt = some (s1, []) ∧
      logl_set_level LOG_LEVEL_DEBUG 7 0 s1 2 LOG_LEVEL_ERROR.toInt = some (s2, []) ∧
      s2.tag_entries_count = State.init.tag_entries_count + 2 ∧
      s2.tag_entries[State.init.tag_entries_count]? = some ⟨1, LOG_LEVEL_INFO.toInt⟩ ∧
      s2.tag_entries[State.init.tag_entries_count + 1]? = some ⟨2, LOG_LEVEL_ERROR.toInt⟩ ∧
      logl_get_level LOG_LEVEL_DEBUG s2 1 = some LOG_LEVEL_INFO.toInt ∧
      logl_get_level LOG_LEVEL_DEBUG s2 2 = some LOG_LEVEL_ERROR.toInt :=
  ⟨rfl, by decide, by decide, by decide, by decide,
    set_level_equal_text (fun _ => "net") LOG_LEVEL_DEBUG 7 0 0 State.init 1 2
      LOG_LEVEL_INFO.toInt LOG_LEVEL_ERROR.toInt rfl (by decide) (by decide) (by decide) (by decide)⟩

/-- C14. First-match lookup: in every state, with or without duplicate tags,
if slot `k` is the lowest-index slot among the first `tag_entries_count` that
holds tag `T`, then `logl_get_level(T)` returns the level stored in slot `k`,
and `logl_set_level(T, L)` writes `L` into slot `k` and changes no other slot
and not the count. -/
theorem first_match (floor : log_level_t) (TAG : Tag) (now : Int) (s : State) (T : Tag)
    (L : Int) (k : Nat) (e : tag_entry_t) (h : s.firstAt T k e) :
    logl_get_level floor s T = some e.level ∧
    ∃ s1, logl_set_level floor TAG now s T L = some (s1, []) ∧
      s1.tag_entries_count = s.tag_entries_count ∧
      s1.tag_entries[k]? = some ⟨T, L⟩ ∧
      ∀ j, j ≠ k → s1.tag_entries[j]? = s.tag_entries[j]? := by
  refine ⟨get_level_of_firstAt floor h, ?_⟩
  obtain ⟨s1, hs1, h1, h2⟩ := set_level_of_firstAt floor TAG now L h
  refine ⟨s1, hs1, h2, ?_, ?_⟩
  · rw [h1, read_set_same s _ (inside_of_read s h.2.1), ← h.2.2.1]
  · intro j hj
    rw [h1]
    exact read_set_other s _ (fun hkj => hj hkj.symm)

theorem first_match_witness :
    dupTags.firstAt 5 1 ⟨5, LOG_LEVEL_WARN.toInt⟩ ∧
    logl_get_level LOG_LEVEL_DEBUG dupTags 5 = some LOG_LEVEL_WARN.toInt ∧
    ∃ s1, logl_set_level LOG_LEVEL_DEBUG 7 0 dupTags 5 LOG_LEVEL_DEBUG.toInt = some (s1, []) ∧
      s1.tag_entries_count = dupTags.tag_entries_count ∧
      s1.tag_entries[1]? = some ⟨5, LOG_LEVEL_DEBUG.toInt⟩ ∧
      ∀ j, j ≠ 1 → s1.tag_entries[j]? = dupTags.tag_entries[j]? :=
  have hf : dupTags.firstAt 5 1 ⟨5, LOG_LEVEL_WARN.toInt⟩ :=
    ⟨by decide, rfl, rfl, fun j e' hj he' => by
      have hj0 : j = 0 := by omega
      subst hj0
      have : e' = ⟨4, LOG_LEVEL_INFO.toInt⟩ := (Option.some.inj he').symm
      subst this
      decide⟩
  ⟨hf, first_match LOG_LEVEL_DEBUG 7 0 dupTags 5 LOG_LEVEL_DEBUG.toInt 1 ⟨5, LOG_LEVEL_WARN.toInt⟩ hf⟩

/-- C15. Entries are never removed or moved: in every registry state, every
`logl_set_level` call returns with an entry count that is not smaller, every
slot below the old count still holds the same tag, and every tag that had an
entry still has one. -/
theorem set_level_keeps_entries (floor : log_level_t) (TAG : Tag) (now : Int) (s : State)
    (T : Tag) (L : Int) (hc : s.tag_entries_count ≤ LOGL_MAX_TAG_ENTRIES) :
    ∃ s1 calls, logl_set_level floor TAG now s T L = some (s1, calls) ∧
      s.tag_entries_count ≤ s1.tag_entries_count ∧
      (∀ i e, i < s.tag_entries_count → s.tag_entries[i]? = some e →
        ∃ e1, s1.tag_entries[i]? = some e1 ∧ e1.tag = e.tag) ∧
      ∀ T', s.hasEntry T' → s1.hasEntry T' := by
  have key : ∀ s1 : State, s.tag_entries_count ≤ s1.tag_entries_count →
      (∀ i e, i < s.tag_entries_count → s.tag_entries[i]? = some e →
        ∃ e1, s1.tag_entries[i]? = some e1 ∧ e1.tag = e.tag) →
      ∀ T', s.hasEntry T' → s1.hasEntry T' := by
    intro s1 hle hslots T' ⟨i, e, hi, he, ht⟩
    obtain ⟨e1, he1, ht1⟩ := hslots i e hi he
    exact ⟨i, e1, by omega, he1, ht1.trans ht⟩
  rcases set_level_cases floor TAG now s T L hc with
    ⟨k, e, s1, hf, hs1, h1, h2⟩ | ⟨_, hfree, s1, hs1, h1, h2⟩ | ⟨_, _, calls, hs⟩
  · have hslots : ∀ i e', i < s.tag_entries_count → s.tag_entries[i]? = some e' →
        ∃ e1, s1.tag_entries[i]? = some e1 ∧ e1.tag = e'.tag := by
      intro i e' _ he'
      by_cases hik : k = i
      · subst hik
        have : e' = e := Option.some.inj (he'.symm.trans hf.2.1)
        subst this
        exact ⟨{ e' with level := L },
          by rw [h1]; exact read_set_same s _ (inside_of_read s he'), rfl⟩
      · exact ⟨e', by rw [h1, read_set_other s _ hik]; exact he', rfl⟩
    exact ⟨s1, [], hs1, by omega, hslots, key s1 (by omega) hslots⟩
  · have hslots : ∀ i e', i < s.tag_entries_count → s.tag_entries[i]? = some e' →
        ∃ e1, s1.tag_entries[i]? = some e1 ∧ e1.tag = e'.tag := by
      intro i e' hi he'
      exact ⟨e', by rw [h1, read_set_other s _ (by omega)]; exact he', rfl⟩
    exact ⟨s1, [], hs1, by omega, hslots, key s1 (by omega) hslots⟩
  · exact ⟨s, calls, hs, le_refl _, fun i e _ he => ⟨e, he, rfl⟩, fun _ h => h⟩

theorem set_level_keeps_entries_witness :
    twoTags.tag_entries_count ≤ LOGL_MAX_TAG_ENTRIES ∧
    ∃ s1 calls, logl_set_level LOG_LEVEL_DEBUG 7 0 twoTags 9 LOG_LEVEL_INFO.toInt = some (s1, calls) ∧
      twoTags.tag_entries_count ≤ s1.tag_entries_count ∧
      (∀ i e, i < twoTags.tag_entries_count → twoTags.tag_entries[i]? = some e →
        ∃ e1, s1.tag_entries[i]? = some e1 ∧ e1.tag = e.tag) ∧
      ∀ T', twoTags.hasEntry T' → s1.hasEntry T' :=
  ⟨by decide, set_level_keeps_entries LOG_LEVEL_DEBUG 7 0 twoTags 9 LOG_LEVEL_INFO.toInt (by decide)⟩

theorem set_levels_distinct (floor : log_level_t) (TAG : Tag) :
    ∀ (l : List (Tag × Int)) (s : State), (l.map Prod.fst).Nodup →
      (∀ p ∈ l, ¬ s.hasEntry p.1) →
      s.tag_entries_count + l.length ≤ LOGL_MAX_TAG_ENTRIES →
      ∃ sk, set_levels floor TAG l s = some sk ∧
        sk.tag_entries_count = s.tag_entries_count + l.length := by
  intro l
  induction l with
  | nil => intro s _ _ _; exact ⟨s, rfl, rfl⟩
  | cons p rest ih =>
    intro s hnd habs hlen
    obtain ⟨T, L⟩ := p
    simp only [List.map_cons, List.nodup_cons, List.length_cons] at hnd hlen
    have hT : ¬ s.hasEntry T := habs (T, L) (List.mem_cons_self _ _)
    obtain ⟨s1, hs1, e1, c1⟩ := set_level_of_absent_free floor TAG 0 L hT (by omega)
    have habs1 : ∀ q ∈ rest, ¬ s1.hasEntry q.1 := by
      intro q hq h
      rcases hasEntry_after_insert L e1 c1 h with heq | hold
      · exact hnd.1 (heq ▸ List.mem_map_of_mem Prod.fst hq)
      · exact habs q (List.mem_cons_of_mem _ hq) hold
    obtain ⟨sk, hsk, hcount⟩ := ih s1 hnd.2 habs1 (by omega)
    refine ⟨sk, ?_, by simp only [List.length_cons]; omega⟩
    simp only [set_levels, hs1, hsk]

/-- C16. Insertion appends exactly one entry: in a state with entry count
`n < LOGL_MAX_TAG_ENTRIES`, `logl_set_level(T, L)` for a tag `T` without an
entry yields count `n + 1` with the entry `(T, L)` in slot `n`; for a tag that
has an entry the count stays as it is. Hence setting `k <= 20` pairwise
distinct tags from the empty registry yields count `k`. -/
theorem set_level_appends (floor : log_level_t) (TAG : Tag) (now : Int) :
    (∀ (s : State) (T : Tag) (L : Int), ¬ s.hasEntry T →
      s.tag_entries_count < LOGL_MAX_TAG_ENTRIES →
      ∃ s1, logl_set_level floor TAG now s T L = some (s1, []) ∧
        s1.tag_entries_count = s.tag_entries_count + 1 ∧
        s1.tag_entries[s.tag_entries_count]? = some ⟨T, L⟩) ∧
    (∀ (s : State) (T : Tag) (L : Int), s.hasEntry T →
      ∃ s1, logl_set_level floor TAG now s T L = some (s1, []) ∧
        s1.tag_entries_count = s.tag_entries_count) ∧
    (∀ l : List (Tag × Int), (l.map Prod.fst).Nodup →
      l.length ≤ LOGL_MAX_TAG_ENTRIES →
      ∃ sk, set_levels floor TAG l State.init = some sk ∧ sk.tag_entries_count = l.length) := by
  refine ⟨?_, ?_, ?_⟩
  · intro s T L hT hc
    obtain ⟨s1, hs1, e1, c1⟩ := set_level_of_absent_free floor TAG now L hT hc
    exact ⟨s1, hs1, c1, by rw [e1]; exact read_set_same s _ hc⟩
  · intro s T L hT
    obtain ⟨k, e, hf⟩ := firstAt_of_hasEntry s T hT
    obtain ⟨s1, hs1, _, c1⟩ := set_level_of_firstAt floor TAG now L hf
    exact ⟨s1, hs1, c1⟩
  · intro l hnd hlen
    have hinit : ∀ p ∈ l, ¬ State.init.hasEntry p.1 := by
      intro p _ ⟨i, _, hi, _⟩
      exact absurd hi (Nat.not_lt_zero _)
    obtain ⟨sk, hsk, hcount⟩ := set_levels_distinct floor TAG l State.init hnd hinit
      (by show 0 + l.length ≤ LOGL_MAX_TAG_ENTRIES; omega)
    exact ⟨sk, hsk, by rw [hcount]; show 0 + l.length = l.length; omega⟩

theorem set_level_appends_witness :
    (¬ twoTags.hasEntry 9 ∧ twoTags.tag_entries_count < LOGL_MAX_TAG_ENTRIES ∧
      ∃ s1, logl_set_level LOG_LEVEL_DEBUG 7 0 twoTags 9 LOG_LEVEL_INFO.toInt = some (s1, []) ∧
        s1.tag_entries_count = twoTags.tag_entries_count + 1 ∧
        s1.tag_entries[twoTags.tag_entries_count]? = some ⟨9, LOG_LEVEL_INFO.toInt⟩) ∧
    (fullRegistry.hasEntry 105 ∧
      ∃ s1, logl_set_level LOG_LEVEL_DEBUG 7 0 fullRegistry 105 LOG_LEVEL_WARN.toInt = some (s1, []) ∧
        s1.tag_entries_count = fullRegistry.tag_entries_count) ∧
    ([((1 : Tag), LOG_LEVEL_INFO.toInt), (2, LOG_LEVEL_WARN.toInt), (3, LOG_LEVEL_INFO.toInt)].map Prod.fst).Nodup ∧
    ∃ sk, set_levels LOG_LEVEL_DEBUG 7
        [(1, LOG_LEVEL_INFO.toInt), (2, LOG_LEVEL_WARN.toInt), (3, LOG_LEVEL_INFO.toInt)] State.init = some sk ∧
      sk.tag_entries_count = 3 :=
  ⟨⟨by decide, by decide,
      (set_level_appends LOG_LEVEL_DEBUG 7 0).1 twoTags 9 LOG_LEVEL_INFO.toInt (by decide) (by decide)⟩,
    ⟨by decide,
      (set_level_appends LOG_LEVEL_DEBUG 7 0).2.1 fullRegistry 105 LOG_LEVEL_WARN.toInt (by decide)⟩,
    by decide,
    (set_level_appends LOG_LEVEL_DEBUG 7 0).2.2
      [(1, LOG_LEVEL_INFO.toInt), (2, LOG_LEVEL_WARN.toInt), (3, LOG_LEVEL_INFO.toInt)] (by decide) (by decide)⟩

/-! ## The diagnostic path -/

/-- C17. The capacity-exceeded path does not recurse: in every registry state
`logl_set_level` returns, with at most one call to the write sink; when the
table is full and `T` has no entry, what it does is exactly the expansion of
`LOG_WARN(TAG, ...)` on the unchanged state, which consults the registry only
through `logl_get_level(TAG)`. -/
theorem set_level_diagnostic_path (floor : log_level_t) (TAG : Tag) (now : Int) (s : State)
    (T : Tag) (L : Int) (hc : s.tag_entries_count ≤ LOGL_MAX_TAG_ENTRIES) :
    ∃ s1 calls, logl_set_level floor TAG now s T L = some (s1, calls) ∧
      calls.countP Call.isWrite ≤ 1 ∧
      (s.tag_entries_count = LOGL_MAX_TAG_ENTRIES → ¬ s.hasEntry T →
        s1 = s ∧
        LOGL_LOG floor now LOG_LEVEL_WARN TAG
          "Could not add tag %s to list: List is full. Try increasing LOGL_MAX_TAG_ENTRIES"
          [Arg.str T] s = some (s1, calls) ∧
        ∃ tag_level, logl_get_level floor s TAG = some tag_level ∧
          calls = if max floor.toInt tag_level ≤ LOG_LEVEL_WARN.toInt then
            [Call.get_timestamp,
              Call.write
                (LOGL_FORMAT .W
                  "Could not add tag %s to list: List is full. Try increasing LOGL_MAX_TAG_ENTRIES")
                [Arg.num (logl_get_timestamp now), Arg.str TAG, Arg.str T]]
          else []) := by
  rcases set_level_cases floor TAG now s T L hc with
    ⟨k, e, s1, hf, hs1, _, _⟩ | ⟨hT, hfree, s1, hs1, _, _⟩ | ⟨hT, hfull, _, _⟩
  · exact ⟨s1, [], hs1, by decide, fun _ hT => absurd (hasEntry_of_firstAt hf) hT⟩
  · exact ⟨s1, [], hs1, by decide, fun hfull _ => by omega⟩
  · obtain ⟨tl, htl⟩ := get_level_total floor s TAG hc
    have hval := LOG_WARN_value floor now TAG
      "Could not add tag %s to list: List is full. Try increasing LOGL_MAX_TAG_ENTRIES"
      [Arg.str T] s htl
    have hset := set_level_of_absent_full floor TAG now L hT hfull
    rw [hval] at hset
    refine ⟨s, _, hset, ?_, fun _ _ => ⟨rfl, hval, tl, htl, rfl⟩⟩
    split <;> simp [List.countP_cons, Call.isWrite]

theorem set_level_diagnostic_path_witness :
    fullRegistry.tag_entries_count ≤ LOGL_MAX_TAG_ENTRIES ∧
    fullRegistry.tag_entries_count = LOGL_MAX_TAG_ENTRIES ∧ ¬ fullRegistry.hasEntry 500 ∧
    ∃ s1 calls, logl_set_level LOG_LEVEL_DEBUG 7 0 fullRegistry 500 LOG_LEVEL_INFO.toInt
        = some (s1, calls) ∧
      calls.countP Call.isWrite ≤ 1 ∧
      (fullRegistry.tag_entries_count = LOGL_MAX_TAG_ENTRIES → ¬ fullRegistry.hasEntry 500 →
        s1 = fullRegistry ∧
        LOGL_LOG LOG_LEVEL_DEBUG 0 LOG_LEVEL_WARN 7
          "Could not add tag %s to list: List is full. Try increasing LOGL_MAX_TAG_ENTRIES"
          [Arg.str 500] fullRegistry = some (s1, calls) ∧
        ∃ tag_level, logl_get_level LOG_LEVEL_DEBUG fullRegistry 7 = some tag_level ∧
          calls = if max LOG_LEVEL_DEBUG.toInt tag_level ≤ LOG_LEVEL_WARN.toInt then
            [Call.get_timestamp,
              Call.write
                (LOGL_FORMAT .W
                  "Could not add tag %s to list: List is full. Try increasing LOGL_MAX_TAG_ENTRIES")
                [Arg.num (logl_get_timestamp 0), Arg.str 7, Arg.str 500]]
          else []) :=
  ⟨by decide, by decide, by decide,
    set_level_diagnostic_path LOG_LEVEL_DEBUG 7 0 fullRegistry 500 LOG_LEVEL_INFO.toInt (by decide)⟩

/-- C18. A successful set is silent: if `T` already has an entry or the entry
count is below `LOGL_MAX_TAG_ENTRIES`, `logl_set_level(T, L)` returns without a
call to `logl_write` or `logl_get_timestamp`; in a registry state, a call that
does reach a collaborator happens only when the table is full and `T` has no
entry. -/
theorem set_level_silent (floor : log_level_t) (TAG : Tag) (now : Int) (s : State) (T : Tag)
    (L : Int) :
    ((s.hasEntry T ∨ s.tag_entries_count < LOGL_MAX_TAG_ENTRIES) →
      ∃ s1, logl_set_level floor TAG now s T L = some (s1, [])) ∧
    (s.tag_entries_count ≤ LOGL_MAX_TAG_ENTRIES →
      ∃ s1 calls, logl_set_level floor TAG now s T L = some (s1, calls) ∧
        (calls ≠ [] → s.tag_entries_count = LOGL_MAX_TAG_ENTRIES ∧ ¬ s.hasEntry T)) := by
  constructor
  · intro h
    obtain ⟨s1, _, _, hs1, _⟩ := set_level_registers floor TAG now s T L h
    exact ⟨s1, hs1⟩
  · intro hc
    rcases set_level_cases floor TAG now s T L hc with
      ⟨_, _, s1, _, hs1, _, _⟩ | ⟨_, _, s1, hs1, _, _⟩ | ⟨hT, hfull, calls, hs⟩
    · exact ⟨s1, [], hs1, fun h => absurd rfl h⟩
    · exact ⟨s1, [], hs1, fun h => absurd rfl h⟩
    · exact ⟨s, calls, hs, fun _ => ⟨hfull, hT⟩⟩

theorem set_level_silent_witness :
    ((fullRegistry.hasEntry 105 ∨ fullRegistry.tag_entries_count < LOGL_MAX_TAG_ENTRIES) ∧
      ∃ s1, logl_set_level LOG_LEVEL_DEBUG 7 0 fullRegistry 105 LOG_LEVEL_WARN.toInt = some (s1, [])) ∧
    (fullRegistry.tag_entries_count ≤ LOGL_MAX_TAG_ENTRIES ∧
      ∃ s1 calls, logl_set_level LOG_LEVEL_DEBUG 7 0 fullRegistry 105 LOG_LEVEL_WARN.toInt
          = some (s1, calls) ∧
        (calls ≠ [] →
          fullRegistry.tag_entries_count = LOGL_MAX_TAG_ENTRIES ∧ ¬ fullRegistry.hasEntry 105)) :=
  ⟨⟨Or.inl (by decide),
      (set_level_silent LOG_LEVEL_DEBUG 7 0 fullRegistry 105 LOG_LEVEL_WARN.toInt).1
        (Or.inl (by decide))⟩,
    ⟨by decide,
      (set_level_silent LOG_LEVEL_DEBUG 7 0 fullRegistry 105 LOG_LEVEL_WARN.toInt).2 (by decide)⟩⟩

/-! ## Monotonicity of the filter -/

theorem LOGL_LOG_emits (floor : log_level_t) (now : Int) (E : log_level_t) (T : Tag)
    (format : String) (args : List Arg) (s : State) {tl : Int}
    (htl : logl_get_level floor s T = some tl) :
    ∃ calls, LOGL_LOG floor now E T format args s = some (s, calls) ∧
      ((∃ line a, Call.write line a ∈ calls) ↔ max floor.toInt tl ≤ E.toInt) := by
  unfold LOGL_LOG
  by_cases h1 : floor.toInt ≤ E.toInt <;> by_cases h2 : tl ≤ E.toInt <;>
    cases E <;> simp [h1, h2, htl, max_le_iff]

/-- C19, amended. With the shipped floor `LOGL_MIN_LOG_LEVEL = LOG_LEVEL_DEBUG`,
in every registry state and for every tag `T`, an ERROR-level invocation calls
`logl_write` exactly once if the level `logl_get_level` returns for `T` is at
most `LOG_LEVEL_ERROR`, and makes no call otherwise; the first is the case
whenever that level is one of the four enumerators, none of which exceeds
`LOG_LEVEL_ERROR`. For every floor and levels `E <= E'`, if an event of level
`E` under `T` is emitted then so is an event of level `E'` under `T`. -/
theorem ERROR_emitted_iff_level_le (now : Int) (T : Tag) (format : String) (args : List Arg)
    (s : State) (hc : s.tag_entries_count ≤ LOGL_MAX_TAG_ENTRIES) :
    (∃ tag_level, logl_get_level LOGL_MIN_LOG_LEVEL s T = some tag_level ∧
      LOGL_LOG LOGL_MIN_LOG_LEVEL now LOG_LEVEL_ERROR T format args s = some (s,
        if tag_level ≤ LOG_LEVEL_ERROR.toInt then
          [Call.get_timestamp,
            Call.write (LOGL_FORMAT .E format)
              (Arg.num (logl_get_timestamp now) :: Arg.str T :: args)]
        else [])) ∧
    (∀ L : log_level_t, L.toInt ≤ LOG_LEVEL_ERROR.toInt) ∧
    (∀ L : log_level_t, logl_get_level LOGL_MIN_LOG_LEVEL s T = some L.toInt →
      LOGL_LOG LOGL_MIN_LOG_LEVEL now LOG_LEVEL_ERROR T format args s = some (s,
        [Call.get_timestamp,
          Call.write (LOGL_FORMAT .E format)
            (Arg.num (logl_get_timestamp now) :: Arg.str T :: args)])) ∧
    ∀ (floor E E' : log_level_t) (calls : List Call), E.toInt ≤ E'.toInt →
      LOGL_LOG floor now E T format args s = some (s, calls) →
      (∃ line a, Call.write line a ∈ calls) →
      ∃ calls', LOGL_LOG floor now E' T format args s = some (s, calls') ∧
        ∃ line a, Call.write line a ∈ calls' := by
  have hmem : ∀ L : log_level_t, L.toInt ≤ LOG_LEVEL_ERROR.toInt :=
    fun L => by cases L <;> decide
  have hval : ∀ tl : Int, logl_get_level LOG_LEVEL_DEBUG s T = some tl →
      LOGL_LOG LOG_LEVEL_DEBUG now LOG_LEVEL_ERROR T format args s = some (s,
        if tl ≤ LOG_LEVEL_ERROR.toInt then
          [Call.get_timestamp,
            Call.write (LOGL_FORMAT .E format)
              (Arg.num (logl_get_timestamp now) :: Arg.str T :: args)]
        else []) := by
    intro tl htl
    unfold LOGL_LOG
    have h1 : LOG_LEVEL_DEBUG.toInt ≤ LOG_LEVEL_ERROR.toInt := by decide
    by_cases h2 : tl ≤ LOG_LEVEL_ERROR.toInt <;> simp [h1, h2, htl]
  refine ⟨?_, hmem, ?_, ?_⟩
  · obtain ⟨tl, htl⟩ := get_level_total LOG_LEVEL_DEBUG s T hc
    exact ⟨tl, htl, hval tl htl⟩
  · intro L hL
    have := hval L.toInt hL
    rwa [if_pos (hmem L)] at this
  · intro floor E E' calls hle hE hw
    obtain ⟨tl, htl⟩ := get_level_total floor s T hc
    obtain ⟨c, hc1, hiff⟩ := LOGL_LOG_emits floor now E T format args s htl
    obtain ⟨c', hc2, hiff'⟩ := LOGL_LOG_emits floor now E' T format args s htl
    rw [hc1] at hE
    obtain rfl : c = calls := (Prod.mk.inj (Option.some.inj hE)).2
    exact ⟨c', hc2, hiff'.mpr (le_trans (hiff.mp hw) hle)⟩

theorem ERROR_emitted_iff_level_le_witness :
    silencedRegistry.tag_entries_count ≤ LOGL_MAX_TAG_ENTRIES ∧
    logl_get_level LOGL_MIN_LOG_LEVEL silencedRegistry 7 = some LOG_LEVEL_ERROR.toInt ∧
    LOGL_LOG LOGL_MIN_LOG_LEVEL 0 LOG_LEVEL_ERROR 7 "x" [] silencedRegistry =
      some (silencedRegistry,
        [Call.get_timestamp,
          Call.write (LOGL_FORMAT .E "x") [Arg.num (logl_get_timestamp 0), Arg.str 7]]) ∧
    LOG_LEVEL_INFO.toInt ≤ LOG_LEVEL_WARN.toInt ∧
    LOGL_LOG LOG_LEVEL_DEBUG 0 LOG_LEVEL_INFO 100 "x" [] silencedRegistry =
      some (silencedRegistry,
        [Call.get_timestamp,
          Call.write (LOGL_FORMAT .I "x") [Arg.num (logl_get_timestamp 0), Arg.str 100]]) ∧
    ∃ calls', LOGL_LOG LOG_LEVEL_DEBUG 0 LOG_LEVEL_WARN 100 "x" [] silencedRegistry =
        some (silencedRegistry, calls') ∧
      ∃ line a, Call.write line a ∈ calls' :=
  ⟨by decide, by decide,
    (ERROR_emitted_iff_level_le 0 7 "x" [] silencedRegistry (by decide)).2.2.1
      LOG_LEVEL_ERROR (by decide),
    by decide, by decide,
    (ERROR_emitted_iff_level_le 0 100 "x" [] silencedRegistry (by decide)).2.2.2
      LOG_LEVEL_DEBUG LOG_LEVEL_INFO LOG_LEVEL_WARN
      [Call.get_timestamp,
        Call.write (LOGL_FORMAT .I "x") [Arg.num (logl_get_timestamp 0), Arg.str 100]]
      (by decide) (by decide)
      ⟨LOGL_FORMAT .I "x", [Arg.num (logl_get_timestamp 0), Arg.str 100], by decide⟩⟩

/-- C19 as stated fails: `logl_set_level(42, 4)` on the start state is accepted
and stores the level 4 for tag 42; in the resulting reachable registry, with
the shipped floor, an ERROR-level invocation under tag 42 makes no call to
`logl_write`. -/
theorem ERROR_silenced_counterexample :
    logl_set_level LOGL_MIN_LOG_LEVEL 7 0 State.init 42 4 = some (aboveError, []) ∧
    Reachable LOGL_MIN_LOG_LEVEL 7 aboveError ∧
    aboveError.tag_entries_count ≤ LOGL_MAX_TAG_ENTRIES ∧
    logl_get_level LOGL_MIN_LOG_LEVEL aboveError 42 = some 4 ∧
    LOG_ERROR LOGL_MIN_LOG_LEVEL 0 42 "x" [] aboveError = some (aboveError, []) :=
  ⟨by decide,
    Reachable.set_level 0 42 4 Reachable.init
      (by decide : logl_set_level LOGL_MIN_LOG_LEVEL 7 0 State.init 42 4 = some (aboveError, [])),
    by decide, by decide, by decide⟩

end Logl
